import Mathlib

set_option maxHeartbeats 1000000

/- Shallow embedding of the higlass-schema repository (src/higlass_schema/schema.py
   and src/higlass_schema/utils.py).

   JSON documents are modelled by the mutual inductive `J` below; objects keep the
   insertion order of their keys, mirroring Python dicts.  Numbers are modelled by
   `Rat` (the documents of interest contain only finite decimal numbers).  Parsing a
   pydantic model is modelled by an explicit `parse` function per model class, and
   serialisation with the repository's `exclude_none=True` default by a `dict`
   function per model class.  The embedding is strict about primitive types (a
   `str` field accepts only JSON strings, an `int` field only integral numbers,
   a `bool` field only booleans); pydantic's lenient cross-type coercions
   (e.g. numeric strings for ints) are not modelled, and no claim depends on them. -/

mutual
inductive J where
  | null : J
  | bool : Bool → J
  | num : Rat → J
  | str : String → J
  | arr : JArr → J
  | obj : JObj → J
deriving DecidableEq
inductive JArr where
  | nil : JArr
  | cons : J → JArr → JArr
deriving DecidableEq
inductive JObj where
  | nil : JObj
  | cons : String → J → JObj → JObj
deriving DecidableEq
end

def JObj.ofList : List (String × J) → JObj
  | [] => .nil
  | (k, v) :: r => .cons k v (JObj.ofList r)

def JArr.ofList : List J → JArr
  | [] => .nil
  | j :: r => .cons j (JArr.ofList r)

mutual
def J.jsize : J → Nat
  | .null => 1
  | .bool _ => 1
  | .num _ => 1
  | .str _ => 1
  | .arr xs => xs.jasize + 1
  | .obj kvs => kvs.josize + 1
def JArr.jasize : JArr → Nat
  | .nil => 0
  | .cons j r => j.jsize + r.jasize
def JObj.josize : JObj → Nat
  | .nil => 0
  | .cons _ v r => v.jsize + r.josize
end

/-- First occurrence wins, like a Python dict built by json.loads. -/
def JObj.lookup : JObj → String → Option J
  | .nil, _ => none
  | .cons k v r, key => if k = key then some v else JObj.lookup r key

def JObj.keys : JObj → List String
  | .nil => []
  | .cons k _ r => k :: JObj.keys r

def JObj.append : JObj → JObj → JObj
  | .nil, o => o
  | .cons k v r, o => .cons k v (JObj.append r o)

/-- Modelling `Extra.forbid`: every key of the document must be declared. -/
def JObj.allKeysIn : JObj → List String → Bool
  | .nil, _ => true
  | .cons k _ r, decl => decide (k ∈ decl) && JObj.allKeysIn r decl

/-- The entries whose key is not a declared field name (pydantic `Extra.allow`
    stores these on the model, in document order). -/
def JObj.extras : JObj → List String → JObj
  | .nil, _ => .nil
  | .cons k v r, decl =>
      if k ∈ decl then JObj.extras r decl else .cons k v (JObj.extras r decl)

def J.isNull : J → Bool
  | .null => true
  | _ => false

/- `exclude_none=True` serialisation of raw (untyped) values stored on a model:
   pydantic's `BaseModel._get_value` drops `None`-valued entries of plain dicts
   (recursively) and keeps `None` elements of lists. -/
mutual
def J.strip : J → J
  | .null => .null
  | .bool b => .bool b
  | .num q => .num q
  | .str s => .str s
  | .arr xs => .arr xs.strip
  | .obj kvs => .obj kvs.strip
def JArr.strip : JArr → JArr
  | .nil => .nil
  | .cons j r => .cons j.strip r.strip
def JObj.strip : JObj → JObj
  | .nil => .nil
  | .cons k v r => if v.isNull then r.strip else .cons k v.strip r.strip
end

/- No JSON null sits at an object-entry value position (recursively). Raw values
   with this property survive `exclude_none` serialisation unchanged. -/
mutual
def J.noNulls : J → Bool
  | .null => true
  | .bool _ => true
  | .num _ => true
  | .str _ => true
  | .arr xs => xs.noNulls
  | .obj kvs => kvs.noNulls
def JArr.noNulls : JArr → Bool
  | .nil => true
  | .cons j r => j.noNulls && r.noNulls
def JObj.noNulls : JObj → Bool
  | .nil => true
  | .cons _ v r => !v.isNull && v.noNulls && r.noNulls
end

/- ---------------------------------------------------------------------------
   Serialisation plumbing: a model's `dict()` output is an ordered object built
   from an association list of optional values; `None`-valued declared fields
   are omitted (`exclude_none=True` is the repository default). -/

def emit : List (String × Option J) → JObj
  | [] => .nil
  | (k, some v) :: r => .cons k v (emit r)
  | (_, none) :: r => emit r

def flook : List (String × Option J) → String → Option (Option J)
  | [], _ => none
  | (k, v) :: r, key => if k = key then some v else flook r key

/- ---------------------------------------------------------------------------
   Field decoders.  Each pydantic field type is decoded from the result of an
   object lookup (`none` = key absent).  Optional fields treat an explicit JSON
   null like an absent key (pydantic `Optional[...] = None`). -/

def decOptStr : Option J → String → Except String (Option String)
  | none, _ => .ok none
  | some .null, _ => .ok none
  | some (.str s), _ => .ok (some s)
  | some _, k => .error (k ++ ": str expected")

def decStr : Option J → String → Except String String
  | some (.str s), _ => .ok s
  | some _, k => .error (k ++ ": str expected")
  | none, k => .error (k ++ ": field required")

def decOptBool : Option J → String → Except String (Option Bool)
  | none, _ => .ok none
  | some .null, _ => .ok none
  | some (.bool b), _ => .ok (some b)
  | some _, k => .error (k ++ ": bool expected")

/-- `bool | None = True` (the editable flags of Viewconf): an absent key takes the
    default `True`, an explicit null becomes `None`. -/
def decBoolDefTrue : Option J → String → Except String (Option Bool)
  | none, _ => .ok (some true)
  | some .null, _ => .ok none
  | some (.bool b), _ => .ok (some b)
  | some _, k => .error (k ++ ": bool expected")

def decOptNum : Option J → String → Except String (Option Rat)
  | none, _ => .ok none
  | some .null, _ => .ok none
  | some (.num q), _ => .ok (some q)
  | some _, k => .error (k ++ ": float expected")

def decNum : Option J → String → Except String Rat
  | some (.num q), _ => .ok q
  | some _, k => .error (k ++ ": float expected")
  | none, k => .error (k ++ ": field required")

def decOptInt : Option J → String → Except String (Option Int)
  | none, _ => .ok none
  | some .null, _ => .ok none
  | some (.num q), k => if q.den = 1 then .ok (some q.num) else .error (k ++ ": int expected")
  | some _, k => .error (k ++ ": int expected")

/-- `int = d` (Layout's x/y/w/h): required type, defaulted when absent. -/
def decIntD (d : Int) : Option J → String → Except String Int
  | none, _ => .ok d
  | some (.num q), k => if q.den = 1 then .ok q.num else .error (k ++ ": int expected")
  | some _, k => .error (k ++ ": int expected")

def decOptObj : Option J → String → Except String (Option JObj)
  | none, _ => .ok none
  | some .null, _ => .ok none
  | some (.obj o), _ => .ok (some o)
  | some _, k => .error (k ++ ": dict expected")

def decOptArr : Option J → String → Except String (Option JArr)
  | none, _ => .ok none
  | some .null, _ => .ok none
  | some (.arr xs), _ => .ok (some xs)
  | some _, k => .error (k ++ ": list expected")

def decStrListArr : JArr → String → Except String (List String)
  | .nil, _ => .ok []
  | .cons (.str s) r, k => (decStrListArr r k).map (fun l => s :: l)
  | .cons _ _, k => .error (k ++ ": str expected")

def decOptStrList : Option J → String → Except String (Option (List String))
  | none, _ => .ok none
  | some .null, _ => .ok none
  | some (.arr xs), k => (decStrListArr xs k).map some
  | some _, k => .error (k ++ ": list expected")

/-- `Domain = Tuple[float, float]`. -/
def decOptDomain : Option J → String → Except String (Option (Rat × Rat))
  | none, _ => .ok none
  | some .null, _ => .ok none
  | some (.arr (.cons (.num a) (.cons (.num b) .nil))), _ => .ok (some (a, b))
  | some _, k => .error (k ++ ": domain pair expected")

/-- A fixed `Literal[lit]` type tag (HeatmapTrack, CombinedTrack). -/
def decLit (lit : String) : Option J → String → Except String Unit
  | some (.str s), k => if s = lit then .ok () else .error (k ++ ": unexpected literal")
  | some _, k => .error (k ++ ": unexpected literal")
  | none, k => .error (k ++ ": field required")

/-- `fromViewUid: None = None` (IndependentViewportProjectionTrack): the key must
    be absent or explicitly null. -/
def decNullOnly : Option J → String → Except String Unit
  | none, _ => .ok ()
  | some .null, _ => .ok ()
  | some _, k => .error (k ++ ": None expected")

/-- An optional nested model field. -/
def decOptModel {α : Type} (f : JObj → Except String α) : Option J → String → Except String (Option α)
  | none, _ => .ok none
  | some .null, _ => .ok none
  | some (.obj o), _ => (f o).map some
  | some _, k => .error (k ++ ": dict expected")

/-- A required nested model field (View.layout, View.tracks). -/
def decModel {α : Type} (f : JObj → Except String α) : Option J → String → Except String α
  | some (.obj o), _ => f o
  | some _, k => .error (k ++ ": dict expected")
  | none, k => .error (k ++ ": field required")

def decListArr {α : Type} (f : J → Except String α) : JArr → Except String (List α)
  | .nil => .ok []
  | .cons j r => do
      let a ← f j
      let l ← decListArr f r
      .ok (a :: l)

/-- `list[X] | None` where each element is a nested model. -/
def decOptListOf {α : Type} (f : J → Except String α) : Option J → String → Except String (Option (List α))
  | none, _ => .ok none
  | some .null, _ => .ok none
  | some (.arr xs), _ => (decListArr f xs).map some
  | some _, k => .error (k ++ ": list expected")

def decPairsObj {α : Type} (f : J → Except String α) : JObj → Except String (List (String × α))
  | .nil => .ok []
  | .cons k v r => do
      let a ← f v
      let l ← decPairsObj f r
      .ok ((k, a) :: l)

/-- `dict[str, X] = Field(default_factory=dict)`: absent gives an empty dict, the
    type itself is required (an explicit null fails). -/
def decDictD {α : Type} (f : J → Except String α) : Option J → String → Except String (List (String × α))
  | none, _ => .ok []
  | some (.obj o), _ => decPairsObj f o
  | some _, k => .error (k ++ ": dict expected")

/-- `tuple[float, float | None] = (1, None)` (View.zoomLimits). -/
def decZoomLimits : Option J → String → Except String (Rat × Option Rat)
  | none, _ => .ok (1, none)
  | some (.arr (.cons (.num a) (.cons (.num b) .nil))), _ => .ok (a, some b)
  | some (.arr (.cons (.num a) (.cons .null .nil))), _ => .ok (a, none)
  | some _, k => .error (k ++ ": zoom limits pair expected")

/-- `list[list[int]] | None` (OverlayOptions.extent). -/
def decIntRow : JArr → String → Except String (List Int)
  | .nil, _ => .ok []
  | .cons (.num q) r, k =>
      if q.den = 1 then (decIntRow r k).map (fun l => q.num :: l)
      else .error (k ++ ": int expected")
  | .cons _ _, k => .error (k ++ ": int expected")

def decIntRows : JArr → String → Except String (List (List Int))
  | .nil, _ => .ok []
  | .cons (.arr row) r, k => do
      let a ← decIntRow row k
      let l ← decIntRows r k
      .ok (a :: l)
  | .cons _ _, k => .error (k ++ ": list expected")

def decOptIntRows : Option J → String → Except String (Option (List (List Int)))
  | none, _ => .ok none
  | some .null, _ => .ok none
  | some (.arr xs), k => (decIntRows xs k).map some
  | some _, k => .error (k ++ ": list expected")

/-- `str | list[str] | None` (OverlayOptions.strokePos/outlinePos). -/
inductive StrOrList where
  | one : String → StrOrList
  | many : List String → StrOrList
deriving DecidableEq

def decOptStrOrList : Option J → String → Except String (Option StrOrList)
  | none, _ => .ok none
  | some .null, _ => .ok none
  | some (.str s), _ => .ok (some (.one s))
  | some (.arr xs), k => (decStrListArr xs k).map (fun l => some (.many l))
  | some _, k => .error (k ++ ": str or list of str expected")

/- Value encoders used by the `dict()` serialisers. -/

def jint (i : Int) : J := .num (i : Rat)

def encStrList (l : List String) : J := .arr (JArr.ofList (l.map J.str))

def encDomain (d : Rat × Rat) : J := .arr (.cons (.num d.1) (.cons (.num d.2) .nil))

def encZoomLimits (z : Rat × Option Rat) : J :=
  .arr (.cons (.num z.1) (.cons (match z.2 with | some b => .num b | none => .null) .nil))

def encIntRow (l : List Int) : J := .arr (JArr.ofList (l.map jint))

def encIntRows (l : List (List Int)) : J := .arr (JArr.ofList (l.map encIntRow))

def encStrOrList : StrOrList → J
  | .one s => .str s
  | .many l => encStrList l

def encPairs {α : Type} (g : α → J) : List (String × α) → JObj
  | [] => .nil
  | (k, a) :: r => .cons k (g a) (encPairs g r)

def isErr {α : Type} : Except String α → Bool
  | .error _ => true
  | .ok _ => false

/- ---------------------------------------------------------------------------
   General value types (schema.py).  Each structure mirrors one pydantic model;
   `parse` embeds pydantic validation of a JSON object against the model and
   `dict` embeds serialisation with the repository's `exclude_none=True` default.
   `clean` holds when serialisation cannot drop information (no nulls in raw
   values), see the round-trip theorems. -/

structure Data where
  type : Option String
  url : Option String
  server : Option String
  filetype : Option String
  children : Option JArr
  tilesetInfo : Option JObj
  tiles : Option JObj
deriving DecidableEq

def Data.parse (o : JObj) : Except String Data := do
  let ty ← decOptStr (o.lookup "type") "type"
  let url ← decOptStr (o.lookup "url") "url"
  let server ← decOptStr (o.lookup "server") "server"
  let filetype ← decOptStr (o.lookup "filetype") "filetype"
  let children ← decOptArr (o.lookup "children") "children"
  let tilesetInfo ← decOptObj (o.lookup "tilesetInfo") "tilesetInfo"
  let tiles ← decOptObj (o.lookup "tiles") "tiles"
  .ok ⟨ty, url, server, filetype, children, tilesetInfo, tiles⟩

def Data.dict (d : Data) : JObj :=
  emit [("type", d.type.map .str), ("url", d.url.map .str), ("server", d.server.map .str),
        ("filetype", d.filetype.map .str),
        ("children", d.children.map (fun xs => .arr xs.strip)),
        ("tilesetInfo", d.tilesetInfo.map (fun o => .obj o.strip)),
        ("tiles", d.tiles.map (fun o => .obj o.strip))]

def optArrNoNulls : Option JArr → Bool
  | none => true
  | some xs => xs.noNulls

def optObjNoNulls : Option JObj → Bool
  | none => true
  | some o => o.noNulls

def Data.clean (d : Data) : Bool :=
  optArrNoNulls d.children && optObjNoNulls d.tilesetInfo && optObjNoNulls d.tiles

structure OverlayOptions where
  extent : Option (List (List Int))
  minWidth : Option Rat
  fill : Option String
  fillOpacity : Option Rat
  stroke : Option String
  strokeOpacity : Option Rat
  strokeWidth : Option Rat
  strokePos : Option StrOrList
  outline : Option String
  outlineOpacity : Option Rat
  outlineWidth : Option Rat
  outlinePos : Option StrOrList
deriving DecidableEq

def OverlayOptions.parse (o : JObj) : Except String OverlayOptions := do
  let extent ← decOptIntRows (o.lookup "extent") "extent"
  let minWidth ← decOptNum (o.lookup "minWidth") "minWidth"
  let fill ← decOptStr (o.lookup "fill") "fill"
  let fillOpacity ← decOptNum (o.lookup "fillOpacity") "fillOpacity"
  let stroke ← decOptStr (o.lookup "stroke") "stroke"
  let strokeOpacity ← decOptNum (o.lookup "strokeOpacity") "strokeOpacity"
  let strokeWidth ← decOptNum (o.lookup "strokeWidth") "strokeWidth"
  let strokePos ← decOptStrOrList (o.lookup "strokePos") "strokePos"
  let outline ← decOptStr (o.lookup "outline") "outline"
  let outlineOpacity ← decOptNum (o.lookup "outlineOpacity") "outlineOpacity"
  let outlineWidth ← decOptNum (o.lookup "outlineWidth") "outlineWidth"
  let outlinePos ← decOptStrOrList (o.lookup "outlinePos") "outlinePos"
  .ok ⟨extent, minWidth, fill, fillOpacity, stroke, strokeOpacity, strokeWidth, strokePos,
       outline, outlineOpacity, outlineWidth, outlinePos⟩

def OverlayOptions.dict (t : OverlayOptions) : JObj :=
  emit [("extent", t.extent.map encIntRows), ("minWidth", t.minWidth.map .num),
        ("fill", t.fill.map .str), ("fillOpacity", t.fillOpacity.map .num),
        ("stroke", t.stroke.map .str), ("strokeOpacity", t.strokeOpacity.map .num),
        ("strokeWidth", t.strokeWidth.map .num), ("strokePos", t.strokePos.map encStrOrList),
        ("outline", t.outline.map .str), ("outlineOpacity", t.outlineOpacity.map .num),
        ("outlineWidth", t.outlineWidth.map .num), ("outlinePos", t.outlinePos.map encStrOrList)]

structure Overlay where
  type : Option String
  uid : Option String
  chromInfoPath : Option String
  includes : Option (List String)
  options : Option OverlayOptions
deriving DecidableEq

def Overlay.parse (o : JObj) : Except String Overlay := do
  let ty ← decOptStr (o.lookup "type") "type"
  let uid ← decOptStr (o.lookup "uid") "uid"
  let chromInfoPath ← decOptStr (o.lookup "chromInfoPath") "chromInfoPath"
  let includes ← decOptStrList (o.lookup "includes") "includes"
  let options ← decOptModel OverlayOptions.parse (o.lookup "options") "options"
  .ok ⟨ty, uid, chromInfoPath, includes, options⟩

def Overlay.dict (t : Overlay) : JObj :=
  emit [("type", t.type.map .str), ("uid", t.uid.map .str),
        ("chromInfoPath", t.chromInfoPath.map .str),
        ("includes", t.includes.map encStrList),
        ("options", t.options.map (fun x => .obj x.dict))]

structure GenomePositionSearchBox where
  autocompleteServer : Option String
  autocompleteId : Option String
  chromInfoServer : Option String
  chromInfoId : Option String
  visible : Option Bool
deriving DecidableEq

def GenomePositionSearchBox.parse (o : JObj) : Except String GenomePositionSearchBox := do
  let autocompleteServer ← decOptStr (o.lookup "autocompleteServer") "autocompleteServer"
  let autocompleteId ← decOptStr (o.lookup "autocompleteId") "autocompleteId"
  let chromInfoServer ← decOptStr (o.lookup "chromInfoServer") "chromInfoServer"
  let chromInfoId ← decOptStr (o.lookup "chromInfoId") "chromInfoId"
  let visible ← decOptBool (o.lookup "visible") "visible"
  .ok ⟨autocompleteServer, autocompleteId, chromInfoServer, chromInfoId, visible⟩

def GenomePositionSearchBox.dict (t : GenomePositionSearchBox) : JObj :=
  emit [("autocompleteServer", t.autocompleteServer.map .str),
        ("autocompleteId", t.autocompleteId.map .str),
        ("chromInfoServer", t.chromInfoServer.map .str),
        ("chromInfoId", t.chromInfoId.map .str),
        ("visible", t.visible.map .bool)]

structure Layout where
  x : Int
  y : Int
  w : Int
  h : Int
  moved : Option Bool
  static : Option Bool
deriving DecidableEq

def Layout.parse (o : JObj) : Except String Layout := do
  let x ← decIntD 0 (o.lookup "x") "x"
  let y ← decIntD 0 (o.lookup "y") "y"
  let w ← decIntD 12 (o.lookup "w") "w"
  let h ← decIntD 12 (o.lookup "h") "h"
  let moved ← decOptBool (o.lookup "moved") "moved"
  let static ← decOptBool (o.lookup "static") "static"
  .ok ⟨x, y, w, h, moved, static⟩

def Layout.dict (t : Layout) : JObj :=
  emit [("x", some (jint t.x)), ("y", some (jint t.y)), ("w", some (jint t.w)),
        ("h", some (jint t.h)), ("moved", t.moved.map .bool), ("static", t.static.map .bool)]

/- ---------------------------------------------------------------------------
   Locks (schema.py).  `Lock` and `ValueScaleLock` mix declared fields with
   dynamically keyed entries: every non-declared key's value is validated by a
   `root_validator(pre=True)` at construction time, and `Extra.allow` keeps the
   validated entries on the model, in document order. -/

def LockEntry : Type := Rat × Rat × Rat

instance : DecidableEq LockEntry := by
  unfold LockEntry
  infer_instance

structure Lock where
  uid : Option String
  entries : List (String × (Rat × Rat × Rat))
deriving DecidableEq

def Lock.fieldNames : List String := ["uid"]

/-- schema.py Lock.validate_locks: each non-declared key must hold a
    `Tuple[float, float, float]`. -/
def lockEntriesOf : JObj → Except String (List (String × (Rat × Rat × Rat)))
  | .nil => .ok []
  | .cons k v r =>
      if k ∈ Lock.fieldNames then lockEntriesOf r
      else
        match v with
        | .arr (.cons (.num a) (.cons (.num b) (.cons (.num c) .nil))) => do
            let l ← lockEntriesOf r
            .ok ((k, (a, b, c)) :: l)
        | _ => .error ("lock entry " ++ k ++ ": tuple of three numbers expected")

def Lock.parse (o : JObj) : Except String Lock := do
  let entries ← lockEntriesOf o
  let uid ← decOptStr (o.lookup "uid") "uid"
  .ok ⟨uid, entries⟩

def encLockEntry (e : Rat × Rat × Rat) : J :=
  .arr (.cons (.num e.1) (.cons (.num e.2.1) (.cons (.num e.2.2) .nil)))

def Lock.dict (l : Lock) : JObj :=
  JObj.append (emit [("uid", l.uid.map .str)]) (encPairs encLockEntry l.entries)

structure ValueScaleLockEntry where
  view : String
  track : String
deriving DecidableEq

/-- The `ValueScaleLockEntry` TypedDict: both keys required, no others allowed. -/
def ValueScaleLockEntry.parse (o : JObj) : Except String ValueScaleLockEntry := do
  if o.allKeysIn ["view", "track"] then
    let view ← decStr (o.lookup "view") "view"
    let track ← decStr (o.lookup "track") "track"
    .ok ⟨view, track⟩
  else .error "value scale lock entry: unexpected key"

def ValueScaleLockEntry.dict (e : ValueScaleLockEntry) : JObj :=
  .cons "view" (.str e.view) (.cons "track" (.str e.track) .nil)

structure ValueScaleLock where
  uid : Option String
  ignoreOffScreenValues : Option Bool
  entries : List (String × ValueScaleLockEntry)
deriving DecidableEq

def ValueScaleLock.fieldNames : List String := ["uid", "ignoreOffScreenValues"]

def vslEntriesOf : JObj → Except String (List (String × ValueScaleLockEntry))
  | .nil => .ok []
  | .cons k v r =>
      if k ∈ ValueScaleLock.fieldNames then vslEntriesOf r
      else
        match v with
        | .obj eo => do
            let e ← ValueScaleLockEntry.parse eo
            let l ← vslEntriesOf r
            .ok ((k, e) :: l)
        | _ => .error ("value scale lock entry " ++ k ++ ": dict expected")

def ValueScaleLock.parse (o : JObj) : Except String ValueScaleLock := do
  let entries ← vslEntriesOf o
  let uid ← decOptStr (o.lookup "uid") "uid"
  let ignoreOffScreenValues ← decOptBool (o.lookup "ignoreOffScreenValues") "ignoreOffScreenValues"
  .ok ⟨uid, ignoreOffScreenValues, entries⟩

def ValueScaleLock.dict (l : ValueScaleLock) : JObj :=
  JObj.append
    (emit [("uid", l.uid.map .str), ("ignoreOffScreenValues", l.ignoreOffScreenValues.map .bool)])
    (encPairs (fun e => .obj e.dict) l.entries)

/- Iteration over a lock (Lock.__iter__ / ValueScaleLock.__iter__): walk every
   attribute of the model (declared fields first, then the dynamic entries, the
   order of `__dict__`) and yield only those whose key is not a declared field. -/

inductive LockItem where
  | strOpt : Option String → LockItem
  | boolOpt : Option Bool → LockItem
  | entry : Rat × Rat × Rat → LockItem
  | vslEntry : ValueScaleLockEntry → LockItem
deriving DecidableEq

def Lock.allItems (l : Lock) : List (String × LockItem) :=
  ("uid", .strOpt l.uid) :: l.entries.map (fun p => (p.1, .entry p.2))

def Lock.iter (l : Lock) : List (String × LockItem) :=
  l.allItems.filter (fun p => decide (p.1 ∉ Lock.fieldNames))

def ValueScaleLock.allItems (l : ValueScaleLock) : List (String × LockItem) :=
  ("uid", .strOpt l.uid) :: ("ignoreOffScreenValues", .boolOpt l.ignoreOffScreenValues) ::
    l.entries.map (fun p => (p.1, .vslEntry p.2))

def ValueScaleLock.iter (l : ValueScaleLock) : List (String × LockItem) :=
  l.allItems.filter (fun p => decide (p.1 ∉ ValueScaleLock.fieldNames))

structure AxisSpecificLock where
  axis : String
  lock : String
deriving DecidableEq

def AxisSpecificLock.parse (o : JObj) : Except String AxisSpecificLock := do
  let axis ← decStr (o.lookup "axis") "axis"
  if axis = "x" ∨ axis = "y" then
    let lk ← decStr (o.lookup "lock") "lock"
    .ok ⟨axis, lk⟩
  else .error "axis: value must be x or y"

def AxisSpecificLock.dict (t : AxisSpecificLock) : JObj :=
  emit [("axis", some (.str t.axis)), ("lock", some (.str t.lock))]

structure AxisSpecificLocks where
  x : Option AxisSpecificLock
  y : Option AxisSpecificLock
deriving DecidableEq

def AxisSpecificLocks.parse (o : JObj) : Except String AxisSpecificLocks := do
  let x ← decOptModel AxisSpecificLock.parse (o.lookup "x") "x"
  let y ← decOptModel AxisSpecificLock.parse (o.lookup "y") "y"
  .ok ⟨x, y⟩

def AxisSpecificLocks.dict (t : AxisSpecificLocks) : JObj :=
  emit [("x", t.x.map (fun a => .obj a.dict)), ("y", t.y.map (fun a => .obj a.dict))]

/-- LocationLocks.locksByViewUid values: `str | AxisSpecificLocks`, tried in
    that order. -/
inductive LocationLockValue where
  | ref : String → LocationLockValue
  | axes : AxisSpecificLocks → LocationLockValue
deriving DecidableEq

def decLocationLockValue : J → Except String LocationLockValue
  | .str s => .ok (.ref s)
  | .obj o => (AxisSpecificLocks.parse o).map .axes
  | _ => .error "locksByViewUid: str or AxisSpecificLocks expected"

def encLocationLockValue : LocationLockValue → J
  | .ref s => .str s
  | .axes a => .obj a.dict

def decLockVal : J → Except String Lock
  | .obj o => Lock.parse o
  | _ => .error "locksDict: dict expected"

def decValueScaleLockVal : J → Except String ValueScaleLock
  | .obj o => ValueScaleLock.parse o
  | _ => .error "locksDict: dict expected"

def decStrVal : J → Except String String
  | .str s => .ok s
  | _ => .error "locksByViewUid: str expected"

structure LocationLocks where
  locksByViewUid : List (String × LocationLockValue)
  locksDict : List (String × Lock)
deriving DecidableEq

def LocationLocks.parse (o : JObj) : Except String LocationLocks := do
  let byUid ← decDictD decLocationLockValue (o.lookup "locksByViewUid") "locksByViewUid"
  let ld ← decDictD decLockVal (o.lookup "locksDict") "locksDict"
  .ok ⟨byUid, ld⟩

def LocationLocks.dict (t : LocationLocks) : JObj :=
  emit [("locksByViewUid", some (.obj (encPairs encLocationLockValue t.locksByViewUid))),
        ("locksDict", some (.obj (encPairs (fun l => .obj l.dict) t.locksDict)))]

structure ZoomLocks where
  locksByViewUid : List (String × String)
  locksDict : List (String × Lock)
deriving DecidableEq

def ZoomLocks.fieldNames : List String := ["locksByViewUid", "locksDict"]

def ZoomLocks.parse (o : JObj) : Except String ZoomLocks := do
  if o.allKeysIn ZoomLocks.fieldNames then
    let byUid ← decDictD decStrVal (o.lookup "locksByViewUid") "locksByViewUid"
    let ld ← decDictD decLockVal (o.lookup "locksDict") "locksDict"
    .ok ⟨byUid, ld⟩
  else .error "ZoomLocks: extra fields not permitted"

def ZoomLocks.dict (t : ZoomLocks) : JObj :=
  emit [("locksByViewUid", some (.obj (encPairs J.str t.locksByViewUid))),
        ("locksDict", some (.obj (encPairs (fun l => .obj l.dict) t.locksDict)))]

structure ValueScaleLocks where
  locksByViewUid : List (String × String)
  locksDict : List (String × ValueScaleLock)
deriving DecidableEq

def ValueScaleLocks.fieldNames : List String := ["locksByViewUid", "locksDict"]

def ValueScaleLocks.parse (o : JObj) : Except String ValueScaleLocks := do
  if o.allKeysIn ValueScaleLocks.fieldNames then
    let byUid ← decDictD decStrVal (o.lookup "locksByViewUid") "locksByViewUid"
    let ld ← decDictD decValueScaleLockVal (o.lookup "locksDict") "locksDict"
    .ok ⟨byUid, ld⟩
  else .error "ValueScaleLocks: extra fields not permitted"

def ValueScaleLocks.dict (t : ValueScaleLocks) : JObj :=
  emit [("locksByViewUid", some (.obj (encPairs J.str t.locksByViewUid))),
        ("locksDict", some (.obj (encPairs (fun l => .obj l.dict) t.locksDict)))]

/- ---------------------------------------------------------------------------
   Tracks (schema.py).  The `Track` union is
   Union[EnumTrack, CombinedTrack, HeatmapTrack, IndependentViewportProjectionTrack,
   BaseTrack]; pydantic v1 tries the members in that order and returns the first
   that validates. -/

def ViewportProjectionTrackType : List String :=
  ["viewport-projection-center", "viewport-projection-vertical",
   "viewport-projection-horizontal"]

def EnumTrackType : List String :=
  ViewportProjectionTrackType ++
  ["multivec", "1d-heatmap", "line", "point", "bar", "divergent-bar",
   "stacked-interval", "gene-annotations", "linear-2d-rectangle-domains",
   "chromosome-labels", "linear-heatmap", "1d-value-interval", "2d-annotations",
   "2d-chromosome-annotations", "2d-chromosome-grid", "2d-chromosome-labels",
   "2d-rectangle-domains", "2d-tiles", "arrowhead-domains", "bedlike",
   "cross-rule", "dummy", "horizontal-1d-annotations", "horizontal-1d-heatmap",
   "horizontal-1d-tiles", "horizontal-1d-value-interval",
   "horizontal-2d-rectangle-domains", "horizontal-bar",
   "horizontal-chromosome-grid", "horizontal-chromosome-labels",
   "horizontal-divergent-bar", "horizontal-gene-annotations",
   "horizontal-heatmap", "horizontal-line", "horizontal-multivec",
   "horizontal-point", "horizontal-rule", "horizontal-vector-heatmap",
   "image-tiles", "left-axis", "left-stacked-interval", "mapbox-tiles",
   "osm-2d-tile-ids", "osm-tiles", "raster-tiles", "simple-svg",
   "square-markers", "top-axis", "top-stacked-interval",
   "vertical-1d-annotations", "vertical-1d-heatmap", "vertical-1d-tiles",
   "vertical-1d-value-interval", "vertical-2d-rectangle-domains",
   "vertical-bar", "vertical-bedlike", "vertical-chromosome-grid",
   "vertical-chromosome-labels", "vertical-gene-annotations",
   "vertical-heatmap", "vertical-line", "vertical-multivec", "vertical-point",
   "vertical-rule", "vertical-vector-heatmap"]

structure EnumTrack where
  type : String
  uid : Option String
  width : Option Int
  height : Option Int
  options : Option JObj
  tilesetUid : Option String
  server : Option String
  data : Option Data
  chromInfoPath : Option String
  fromViewUid : Option String
  x : Option Rat
  y : Option Rat
deriving DecidableEq

def EnumTrack.parse (o : JObj) : Except String EnumTrack := do
  let ty ← decStr (o.lookup "type") "type"
  if ty ∈ EnumTrackType then
    let uid ← decOptStr (o.lookup "uid") "uid"
    let width ← decOptInt (o.lookup "width") "width"
    let height ← decOptInt (o.lookup "height") "height"
    let options ← decOptObj (o.lookup "options") "options"
    let tilesetUid ← decOptStr (o.lookup "tilesetUid") "tilesetUid"
    let server ← decOptStr (o.lookup "server") "server"
    let data ← decOptModel Data.parse (o.lookup "data") "data"
    let chromInfoPath ← decOptStr (o.lookup "chromInfoPath") "chromInfoPath"
    let fromViewUid ← decOptStr (o.lookup "fromViewUid") "fromViewUid"
    let x ← decOptNum (o.lookup "x") "x"
    let y ← decOptNum (o.lookup "y") "y"
    .ok ⟨ty, uid, width, height, options, tilesetUid, server, data, chromInfoPath,
         fromViewUid, x, y⟩
  else .error "type: not a known enum track type"

def EnumTrack.dict (t : EnumTrack) : JObj :=
  emit [("type", some (.str t.type)), ("uid", t.uid.map .str),
        ("width", t.width.map jint), ("height", t.height.map jint),
        ("options", t.options.map (fun o => .obj o.strip)),
        ("tilesetUid", t.tilesetUid.map .str), ("server", t.server.map .str),
        ("data", t.data.map (fun d => .obj d.dict)),
        ("chromInfoPath", t.chromInfoPath.map .str),
        ("fromViewUid", t.fromViewUid.map .str),
        ("x", t.x.map .num), ("y", t.y.map .num)]

def optDataClean : Option Data → Bool
  | none => true
  | some d => d.clean

def EnumTrack.clean (t : EnumTrack) : Bool :=
  optObjNoNulls t.options && optDataClean t.data

structure HeatmapTrack where
  uid : Option String
  width : Option Int
  height : Option Int
  options : Option JObj
  tilesetUid : Option String
  server : Option String
  data : Option Data
  position : Option String
  transforms : Option JArr
deriving DecidableEq

def HeatmapTrack.parse (o : JObj) : Except String HeatmapTrack := do
  decLit "heatmap" (o.lookup "type") "type"
  let uid ← decOptStr (o.lookup "uid") "uid"
  let width ← decOptInt (o.lookup "width") "width"
  let height ← decOptInt (o.lookup "height") "height"
  let options ← decOptObj (o.lookup "options") "options"
  let tilesetUid ← decOptStr (o.lookup "tilesetUid") "tilesetUid"
  let server ← decOptStr (o.lookup "server") "server"
  let data ← decOptModel Data.parse (o.lookup "data") "data"
  let position ← decOptStr (o.lookup "position") "position"
  let transforms ← decOptArr (o.lookup "transforms") "transforms"
  .ok ⟨uid, width, height, options, tilesetUid, server, data, position, transforms⟩

def HeatmapTrack.dict (t : HeatmapTrack) : JObj :=
  emit [("type", some (.str "heatmap")), ("uid", t.uid.map .str),
        ("width", t.width.map jint), ("height", t.height.map jint),
        ("options", t.options.map (fun o => .obj o.strip)),
        ("tilesetUid", t.tilesetUid.map .str), ("server", t.server.map .str),
        ("data", t.data.map (fun d => .obj d.dict)),
        ("position", t.position.map .str),
        ("transforms", t.transforms.map (fun xs => .arr xs.strip))]

def HeatmapTrack.clean (t : HeatmapTrack) : Bool :=
  optObjNoNulls t.options && optDataClean t.data && optArrNoNulls t.transforms

structure IndependentViewportProjectionTrack where
  type : String
  uid : Option String
  width : Option Int
  height : Option Int
  options : Option JObj
  projectionXDomain : Option (Rat × Rat)
  projectionYDomain : Option (Rat × Rat)
  transforms : Option JArr
  x : Option Rat
  y : Option Rat
deriving DecidableEq

def IndependentViewportProjectionTrack.parse (o : JObj) :
    Except String IndependentViewportProjectionTrack := do
  let ty ← decStr (o.lookup "type") "type"
  if ty ∈ ViewportProjectionTrackType then
    decNullOnly (o.lookup "fromViewUid") "fromViewUid"
    let uid ← decOptStr (o.lookup "uid") "uid"
    let width ← decOptInt (o.lookup "width") "width"
    let height ← decOptInt (o.lookup "height") "height"
    let options ← decOptObj (o.lookup "options") "options"
    let pX ← decOptDomain (o.lookup "projectionXDomain") "projectionXDomain"
    let pY ← decOptDomain (o.lookup "projectionYDomain") "projectionYDomain"
    let transforms ← decOptArr (o.lookup "transforms") "transforms"
    let x ← decOptNum (o.lookup "x") "x"
    let y ← decOptNum (o.lookup "y") "y"
    .ok ⟨ty, uid, width, height, options, pX, pY, transforms, x, y⟩
  else .error "type: not a viewport projection track type"

def IndependentViewportProjectionTrack.dict (t : IndependentViewportProjectionTrack) : JObj :=
  emit [("type", some (.str t.type)), ("uid", t.uid.map .str),
        ("width", t.width.map jint), ("height", t.height.map jint),
        ("options", t.options.map (fun o => .obj o.strip)),
        ("projectionXDomain", t.projectionXDomain.map encDomain),
        ("projectionYDomain", t.projectionYDomain.map encDomain),
        ("transforms", t.transforms.map (fun xs => .arr xs.strip)),
        ("x", t.x.map .num), ("y", t.y.map .num)]

structure BaseTrack where
  type : String
  uid : Option String
  width : Option Int
  height : Option Int
  options : Option JObj
  extras : JObj
deriving DecidableEq

def BaseTrack.fieldNames : List String := ["type", "uid", "width", "height", "options"]

def BaseTrack.parse (o : JObj) : Except String BaseTrack := do
  let ty ← decStr (o.lookup "type") "type"
  let uid ← decOptStr (o.lookup "uid") "uid"
  let width ← decOptInt (o.lookup "width") "width"
  let height ← decOptInt (o.lookup "height") "height"
  let options ← decOptObj (o.lookup "options") "options"
  .ok ⟨ty, uid, width, height, options, o.extras BaseTrack.fieldNames⟩

def BaseTrack.dict (t : BaseTrack) : JObj :=
  JObj.append
    (emit [("type", some (.str t.type)), ("uid", t.uid.map .str),
           ("width", t.width.map jint), ("height", t.height.map jint),
           ("options", t.options.map (fun o => .obj o.strip))])
    t.extras.strip

def BaseTrack.clean (t : BaseTrack) : Bool :=
  optObjNoNulls t.options && t.extras.noNulls

mutual
inductive Track where
  | enum : EnumTrack → Track
  | combined : CombinedTrack → Track
  | heatmap : HeatmapTrack → Track
  | ivp : IndependentViewportProjectionTrack → Track
  | base : BaseTrack → Track
deriving DecidableEq
inductive CombinedTrack where
  | mk : TrackList → Option String → CombinedTrack
deriving DecidableEq
inductive TrackList where
  | nil : TrackList
  | cons : Track → TrackList → TrackList
deriving DecidableEq
end

def CombinedTrack.contents : CombinedTrack → TrackList
  | .mk ts _ => ts

def CombinedTrack.position : CombinedTrack → Option String
  | .mk _ p => p

/-- Parse the elements of the `contents` array of a CombinedTrack. -/
def parseArrWith (f : J → Except String Track) : JArr → Except String TrackList
  | .nil => .ok .nil
  | .cons j r => do
      let t ← f j
      let l ← parseArrWith f r
      .ok (.cons t l)

/-- One resolution attempt of the Track union against a JSON document, with fuel
    bounding the recursion into CombinedTrack contents.  The chain is the order
    of the Union: EnumTrack, CombinedTrack, HeatmapTrack,
    IndependentViewportProjectionTrack, BaseTrack; the first success wins. -/
def parseTrackF : Nat → J → Except String Track
  | 0, _ => .error "track: recursion limit"
  | _n + 1, .null => .error "track: dict expected"
  | _n + 1, .bool _ => .error "track: dict expected"
  | _n + 1, .num _ => .error "track: dict expected"
  | _n + 1, .str _ => .error "track: dict expected"
  | _n + 1, .arr _ => .error "track: dict expected"
  | n + 1, .obj kvs =>
      match EnumTrack.parse kvs with
      | .ok e => .ok (.enum e)
      | .error _ =>
        match
          (do
            decLit "combined" (kvs.lookup "type") "type"
            match kvs.lookup "contents" with
            | some (.arr js) => do
                let ts ← parseArrWith (parseTrackF n) js
                let pos ← decOptStr (kvs.lookup "position") "position"
                .ok (CombinedTrack.mk ts pos)
            | some _ => .error "contents: list expected"
            | none => .error "contents: field required" :
            Except String CombinedTrack) with
        | .ok c => .ok (.combined c)
        | .error _ =>
          match HeatmapTrack.parse kvs with
          | .ok h => .ok (.heatmap h)
          | .error _ =>
            match IndependentViewportProjectionTrack.parse kvs with
            | .ok i => .ok (.ivp i)
            | .error _ => (BaseTrack.parse kvs).map Track.base

def parseTrack (j : J) : Except String Track := parseTrackF j.jsize j

def parseTrackArr : JArr → Except String TrackList := parseArrWith parseTrack

/-- The CombinedTrack member of the union, expressed with the fuel-free parser. -/
def tryCombined (kvs : JObj) : Except String CombinedTrack := do
  decLit "combined" (kvs.lookup "type") "type"
  match kvs.lookup "contents" with
  | some (.arr js) => do
      let ts ← parseTrackArr js
      let pos ← decOptStr (kvs.lookup "position") "position"
      .ok (CombinedTrack.mk ts pos)
  | some _ => .error "contents: list expected"
  | none => .error "contents: field required"

/-- The union resolution chain, expressed with the fuel-free parser. -/
def trackChain (kvs : JObj) : Except String Track :=
  match EnumTrack.parse kvs with
  | .ok e => .ok (.enum e)
  | .error _ =>
    match tryCombined kvs with
    | .ok c => .ok (.combined c)
    | .error _ =>
      match HeatmapTrack.parse kvs with
      | .ok h => .ok (.heatmap h)
      | .error _ =>
        match IndependentViewportProjectionTrack.parse kvs with
        | .ok i => .ok (.ivp i)
        | .error _ => (BaseTrack.parse kvs).map Track.base

mutual
def Track.dict : Track → JObj
  | .enum e => e.dict
  | .combined c => c.dict
  | .heatmap h => h.dict
  | .ivp i => i.dict
  | .base b => b.dict
def CombinedTrack.dict : CombinedTrack → JObj
  | .mk ts pos =>
      emit [("type", some (.str "combined")), ("contents", some (.arr ts.dictArr)),
            ("position", pos.map .str)]
def TrackList.dictArr : TrackList → JArr
  | .nil => .nil
  | .cons t r => .cons (.obj t.dict) r.dictArr
end

/- `clean` on tracks additionally excludes IndependentViewportProjectionTrack:
   its serialised form re-parses as an EnumTrack (the union tries EnumTrack
   first and the three projection type strings are EnumTrack types). -/
mutual
def Track.clean : Track → Bool
  | .enum e => e.clean
  | .combined c => c.clean
  | .heatmap h => h.clean
  | .ivp _ => false
  | .base b => b.clean
def CombinedTrack.clean : CombinedTrack → Bool
  | .mk ts _ => ts.clean
def TrackList.clean : TrackList → Bool
  | .nil => true
  | .cons t r => t.clean && r.clean
end

/- The number of IndependentViewportProjectionTrack values inside a track. -/
mutual
def Track.ivpCount : Track → Nat
  | .enum _ => 0
  | .combined c => c.ivpCount
  | .heatmap _ => 0
  | .ivp _ => 1
  | .base _ => 0
def CombinedTrack.ivpCount : CombinedTrack → Nat
  | .mk ts _ => ts.ivpCount
def TrackList.ivpCount : TrackList → Nat
  | .nil => 0
  | .cons t r => t.ivpCount + r.ivpCount
end

/- ---------------------------------------------------------------------------
   View and Viewconf (schema.py). -/

structure Tracks where
  left : Option TrackList
  right : Option TrackList
  top : Option TrackList
  bottom : Option TrackList
  center : Option TrackList
  whole : Option TrackList
  gallery : Option TrackList
deriving DecidableEq

def decOptTrackList : Option J → String → Except String (Option TrackList)
  | none, _ => .ok none
  | some .null, _ => .ok none
  | some (.arr js), _ => (parseTrackArr js).map some
  | some _, k => .error (k ++ ": list expected")

def Tracks.parse (o : JObj) : Except String Tracks := do
  let left ← decOptTrackList (o.lookup "left") "left"
  let right ← decOptTrackList (o.lookup "right") "right"
  let top ← decOptTrackList (o.lookup "top") "top"
  let bottom ← decOptTrackList (o.lookup "bottom") "bottom"
  let center ← decOptTrackList (o.lookup "center") "center"
  let whole ← decOptTrackList (o.lookup "whole") "whole"
  let gallery ← decOptTrackList (o.lookup "gallery") "gallery"
  .ok ⟨left, right, top, bottom, center, whole, gallery⟩

def Tracks.dict (t : Tracks) : JObj :=
  emit [("left", t.left.map (fun ts => .arr ts.dictArr)),
        ("right", t.right.map (fun ts => .arr ts.dictArr)),
        ("top", t.top.map (fun ts => .arr ts.dictArr)),
        ("bottom", t.bottom.map (fun ts => .arr ts.dictArr)),
        ("center", t.center.map (fun ts => .arr ts.dictArr)),
        ("whole", t.whole.map (fun ts => .arr ts.dictArr)),
        ("gallery", t.gallery.map (fun ts => .arr ts.dictArr))]

def optTrackListClean : Option TrackList → Bool
  | none => true
  | some ts => ts.clean

def Tracks.clean (t : Tracks) : Bool :=
  optTrackListClean t.left && optTrackListClean t.right && optTrackListClean t.top &&
  optTrackListClean t.bottom && optTrackListClean t.center && optTrackListClean t.whole &&
  optTrackListClean t.gallery

def optTrackListIvpCount : Option TrackList → Nat
  | none => 0
  | some ts => ts.ivpCount

def Tracks.ivpCount (t : Tracks) : Nat :=
  optTrackListIvpCount t.left + optTrackListIvpCount t.right + optTrackListIvpCount t.top +
  optTrackListIvpCount t.bottom + optTrackListIvpCount t.center +
  optTrackListIvpCount t.whole + optTrackListIvpCount t.gallery

structure View where
  layout : Layout
  tracks : Tracks
  uid : Option String
  autocompleteSource : Option String
  chromInfoPath : Option String
  genomePositionSearchBox : Option GenomePositionSearchBox
  genomePositionSearchBoxVisible : Option Bool
  initialXDomain : Option (Rat × Rat)
  initialYDomain : Option (Rat × Rat)
  overlays : Option (List Overlay)
  selectionView : Option Bool
  zoomFixed : Option Bool
  zoomLimits : Rat × Option Rat
deriving DecidableEq

def View.fieldNames : List String :=
  ["layout", "tracks", "uid", "autocompleteSource", "chromInfoPath",
   "genomePositionSearchBox", "genomePositionSearchBoxVisible", "initialXDomain",
   "initialYDomain", "overlays", "selectionView", "zoomFixed", "zoomLimits"]

def decOverlayVal : J → Except String Overlay
  | .obj o => Overlay.parse o
  | _ => .error "overlays: dict expected"

/-- View has `Extra.forbid`: any key outside the declared field set fails. -/
def View.parse (o : JObj) : Except String View := do
  if o.allKeysIn View.fieldNames then
    let layout ← decModel Layout.parse (o.lookup "layout") "layout"
    let tracks ← decModel Tracks.parse (o.lookup "tracks") "tracks"
    let uid ← decOptStr (o.lookup "uid") "uid"
    let autocompleteSource ← decOptStr (o.lookup "autocompleteSource") "autocompleteSource"
    let chromInfoPath ← decOptStr (o.lookup "chromInfoPath") "chromInfoPath"
    let gpsb ← decOptModel GenomePositionSearchBox.parse
      (o.lookup "genomePositionSearchBox") "genomePositionSearchBox"
    let gpsbVisible ← decOptBool
      (o.lookup "genomePositionSearchBoxVisible") "genomePositionSearchBoxVisible"
    let initialXDomain ← decOptDomain (o.lookup "initialXDomain") "initialXDomain"
    let initialYDomain ← decOptDomain (o.lookup "initialYDomain") "initialYDomain"
    let overlays ← decOptListOf decOverlayVal (o.lookup "overlays") "overlays"
    let selectionView ← decOptBool (o.lookup "selectionView") "selectionView"
    let zoomFixed ← decOptBool (o.lookup "zoomFixed") "zoomFixed"
    let zoomLimits ← decZoomLimits (o.lookup "zoomLimits") "zoomLimits"
    .ok ⟨layout, tracks, uid, autocompleteSource, chromInfoPath, gpsb, gpsbVisible,
         initialXDomain, initialYDomain, overlays, selectionView, zoomFixed, zoomLimits⟩
  else .error "View: extra fields not permitted"

def View.dict (v : View) : JObj :=
  emit [("layout", some (.obj v.layout.dict)), ("tracks", some (.obj v.tracks.dict)),
        ("uid", v.uid.map .str),
        ("autocompleteSource", v.autocompleteSource.map .str),
        ("chromInfoPath", v.chromInfoPath.map .str),
        ("genomePositionSearchBox", v.genomePositionSearchBox.map (fun g => .obj g.dict)),
        ("genomePositionSearchBoxVisible", v.genomePositionSearchBoxVisible.map .bool),
        ("initialXDomain", v.initialXDomain.map encDomain),
        ("initialYDomain", v.initialYDomain.map encDomain),
        ("overlays", v.overlays.map (fun l => .arr (JArr.ofList (l.map (fun ov => .obj ov.dict))))),
        ("selectionView", v.selectionView.map .bool),
        ("zoomFixed", v.zoomFixed.map .bool),
        ("zoomLimits", some (encZoomLimits v.zoomLimits))]

def View.clean (v : View) : Bool := v.tracks.clean

def View.ivpCount (v : View) : Nat := v.tracks.ivpCount

structure Viewconf where
  editable : Option Bool
  viewEditable : Option Bool
  tracksEditable : Option Bool
  zoomFixed : Option Bool
  compactLayout : Option Bool
  exportViewUrl : Option String
  trackSourceServers : Option (List String)
  views : Option (List View)
  zoomLocks : Option ZoomLocks
  locationLocks : Option LocationLocks
  valueScaleLocks : Option ValueScaleLocks
  chromInfoPath : Option String
deriving DecidableEq

def Viewconf.fieldNames : List String :=
  ["editable", "viewEditable", "tracksEditable", "zoomFixed", "compactLayout",
   "exportViewUrl", "trackSourceServers", "views", "zoomLocks", "locationLocks",
   "valueScaleLocks", "chromInfoPath"]

def decViewVal : J → Except String View
  | .obj o => View.parse o
  | _ => .error "views: dict expected"

/-- `views: Annotated[list[ViewT], Field(min_items=1)] | None = None`. -/
def decViews : Option J → String → Except String (Option (List View))
  | none, _ => .ok none
  | some .null, _ => .ok none
  | some (.arr js), k => do
      let vs ← decListArr decViewVal js
      if 1 ≤ vs.length then .ok (some vs)
      else .error (k ++ ": ensure this value has at least 1 items")
  | some _, k => .error (k ++ ": list expected")

/-- Viewconf has `Extra.forbid`: any key outside the declared field set fails. -/
def Viewconf.parseObj (o : JObj) : Except String Viewconf := do
  if o.allKeysIn Viewconf.fieldNames then
    let editable ← decBoolDefTrue (o.lookup "editable") "editable"
    let viewEditable ← decBoolDefTrue (o.lookup "viewEditable") "viewEditable"
    let tracksEditable ← decBoolDefTrue (o.lookup "tracksEditable") "tracksEditable"
    let zoomFixed ← decOptBool (o.lookup "zoomFixed") "zoomFixed"
    let compactLayout ← decOptBool (o.lookup "compactLayout") "compactLayout"
    let exportViewUrl ← decOptStr (o.lookup "exportViewUrl") "exportViewUrl"
    let trackSourceServers ← decOptStrList (o.lookup "trackSourceServers") "trackSourceServers"
    let views ← decViews (o.lookup "views") "views"
    let zoomLocks ← decOptModel ZoomLocks.parse (o.lookup "zoomLocks") "zoomLocks"
    let locationLocks ← decOptModel LocationLocks.parse (o.lookup "locationLocks") "locationLocks"
    let valueScaleLocks ← decOptModel ValueScaleLocks.parse
      (o.lookup "valueScaleLocks") "valueScaleLocks"
    let chromInfoPath ← decOptStr (o.lookup "chromInfoPath") "chromInfoPath"
    .ok ⟨editable, viewEditable, tracksEditable, zoomFixed, compactLayout, exportViewUrl,
         trackSourceServers, views, zoomLocks, locationLocks, valueScaleLocks, chromInfoPath⟩
  else .error "Viewconf: extra fields not permitted"

/-- `Viewconf.parse` on a whole JSON document. -/
def Viewconf.parse : J → Except String Viewconf
  | .obj o => Viewconf.parseObj o
  | _ => .error "Viewconf: dict expected"

def Viewconf.dict (m : Viewconf) : JObj :=
  emit [("editable", m.editable.map .bool), ("viewEditable", m.viewEditable.map .bool),
        ("tracksEditable", m.tracksEditable.map .bool),
        ("zoomFixed", m.zoomFixed.map .bool),
        ("compactLayout", m.compactLayout.map .bool),
        ("exportViewUrl", m.exportViewUrl.map .str),
        ("trackSourceServers", m.trackSourceServers.map encStrList),
        ("views", m.views.map (fun l => .arr (JArr.ofList (l.map (fun v => .obj v.dict))))),
        ("zoomLocks", m.zoomLocks.map (fun z => .obj z.dict)),
        ("locationLocks", m.locationLocks.map (fun z => .obj z.dict)),
        ("valueScaleLocks", m.valueScaleLocks.map (fun z => .obj z.dict)),
        ("chromInfoPath", m.chromInfoPath.map .str)]

def viewsClean : Option (List View) → Bool
  | none => true
  | some l => l.all View.clean

/-- The conditions under which `exclude_none` serialisation of a parsed Viewconf
    loses nothing: the three editable flags were not explicitly null, no
    IndependentViewportProjectionTrack is present, and no retained raw value
    holds a null object entry. -/
def Viewconf.clean (m : Viewconf) : Bool :=
  m.editable.isSome && m.viewEditable.isSome && m.tracksEditable.isSome &&
  viewsClean m.views

def viewsIvpCount : Option (List View) → Nat
  | none => 0
  | some l => (l.map View.ivpCount).sum

def Viewconf.ivpCount (m : Viewconf) : Nat := viewsIvpCount m.views

/- ---------------------------------------------------------------------------
   JSON Schema generation (utils.py simplify_enum_schema, schema.py schema()).
   The pydantic derivation of the raw schema document is reflective framework
   behaviour and is treated as an abstract input; the repository's
   post-processing passes are embedded below.  A failing pass (Python KeyError /
   AssertionError) is modelled by `none`. -/

def JObj.removeKey : JObj → String → JObj
  | .nil, _ => .nil
  | .cons k v r, key =>
      if k = key then JObj.removeKey r key else .cons k v (JObj.removeKey r key)

/-- Python `d[key] = v`: replace in place if present, else append. -/
def JObj.setKey : JObj → String → J → JObj
  | .nil, key, v => .cons key v .nil
  | .cons k w r, key, v =>
      if k = key then .cons k v r else .cons k w (JObj.setKey r key v)

def JObj.toList : JObj → List (String × J)
  | .nil => []
  | .cons k v r => (k, v) :: JObj.toList r

/-- Python `OrderedDict(pairs)`: first insertion fixes the position, a later
    duplicate key overwrites the value in place. -/
def odFromList (l : List (String × J)) : JObj :=
  l.foldl (fun acc p => acc.setKey p.1 p.2) .nil

def jarrAppend : JArr → JArr → JArr
  | .nil, ys => ys
  | .cons x xs, ys => .cons x (jarrAppend xs ys)

/-- utils.py simplify_enum_schema: collapse a union of enum fragments into one
    flat enum; a lone `enum` is kept, reduced to a `const` if it has exactly one
    entry.  Each `anyOf` entry must itself carry an `enum` (the assert). -/
def collectEnums : JArr → Option JArr
  | .nil => some .nil
  | .cons (.obj e) r =>
      match e.lookup "enum" with
      | some (.arr l) => (collectEnums r).map (fun acc => jarrAppend l acc)
      | _ => none
  | .cons _ _ => none

def simplify_enum_schema (s : JObj) : Option J :=
  match s.lookup "anyOf" with
  | some (.arr entries) =>
      (collectEnums entries).map (fun l => .obj (.cons "enum" (.arr l) .nil))
  | some _ => none
  | none =>
      match s.lookup "enum" with
      | some (.arr (.cons v .nil)) => some (.obj (.cons "const" v .nil))
      | some (.arr l) => some (.obj (.cons "enum" (.arr l) .nil))
      | _ => none

def stripPropTitles : JObj → JObj
  | .nil => .nil
  | .cons k (.obj p) r => .cons k (.obj (p.removeKey "title")) (stripPropTitles r)
  | .cons k v r => .cons k v (stripPropTitles r)

/-- Modelled from the spec: `exclude_properties_titles` is imported from
    higlass_schema.utils in schema.py but the function itself is absent from the
    provided sources.  Per spec section 4.3(a) it strips the auto-generated
    "title" annotation from every property of the given schema fragment. -/
def exclude_properties_titles (s : JObj) : JObj :=
  match s.lookup "properties" with
  | some (.obj props) => s.setKey "properties" (.obj (stripPropTitles props))
  | _ => s

/-- schema.py Viewconf.Config.schema_extra: strip property titles, then set
    `minItems: 1` on the `views` property. -/
def viewconfSchemaExtra (s : JObj) : Option JObj :=
  match (exclude_properties_titles s).lookup "properties" with
  | some (.obj props) =>
      match props.lookup "views" with
      | some (.obj vs) =>
          some ((exclude_properties_titles s).setKey "properties"
            (.obj (props.setKey "views" (.obj (vs.setKey "minItems" (.num 1))))))
      | _ => none
  | _ => none

/-- schema.py AxisSpecificLock.Config.schema_extra: strip property titles, then
    replace the `axis` property by its simplified enum fragment. -/
def axisSpecificLockSchemaExtra (s : JObj) : Option JObj :=
  match (exclude_properties_titles s).lookup "properties" with
  | some (.obj props) =>
      match props.lookup "axis" with
      | some (.obj ax) =>
          (simplify_enum_schema ax).map
            (fun newAx =>
              (exclude_properties_titles s).setKey "properties"
                (.obj (props.setKey "axis" newAx)))
      | _ => none
  | _ => none

def remTitleVals : JObj → Option JObj
  | .nil => some .nil
  | .cons k (.obj d) r => (remTitleVals r).map (fun r2 => .cons k (.obj (d.removeKey "title")) r2)
  | .cons _ _ _ => none

/-- schema.py `schema()`, with the pydantic-derived document for Viewconf as
    abstract input: apply the root schema_extra (as pydantic does while
    generating), drop the titles of all definitions, then place `$schema` and
    `$id` ahead of the derived root keys. -/
def schema (derived : JObj) : Option JObj :=
  match viewconfSchemaExtra derived with
  | none => none
  | some root =>
      match root.lookup "definitions" with
      | some (.obj defs) =>
          match remTitleVals defs with
          | none => none
          | some defs2 =>
              some (odFromList
                ([("$schema", .str "http://json-schema.org/draft-07/schema#"),
                  ("$id", .str "https://higlass.io/#viewconf")] ++
                  (root.setKey "definitions" (.obj defs2)).toList))
      | _ => none

/- ---------------------------------------------------------------------------
   Concrete documents and models used by the claims. -/

def vpCenterDoc : JObj := .cons "type" (.str "viewport-projection-center") .nil

def vpCenterFromViewDoc : JObj :=
  .cons "type" (.str "viewport-projection-center")
    (.cons "fromViewUid" (.str "abc") .nil)

def vpCenterEnumModel : EnumTrack :=
  ⟨"viewport-projection-center", none, none, none, none, none, none, none, none,
   none, none, none⟩

def vpCenterFromViewEnumModel : EnumTrack :=
  ⟨"viewport-projection-center", none, none, none, none, none, none, none, none,
   some "abc", none, none⟩

/-- A track document that does parse as IndependentViewportProjectionTrack: the
    string under `data` fails EnumTrack (which declares `data: Data | None`) while
    the independent projection variant silently ignores the unknown key. -/
def ivpReachableDoc : JObj :=
  .cons "type" (.str "viewport-projection-center")
    (.cons "data" (.str "bogus") .nil)

def ivpReachableModel : IndependentViewportProjectionTrack :=
  ⟨"viewport-projection-center", none, none, none, none, none, none, none, none, none⟩

def combinedEmptyDoc : JObj :=
  .cons "type" (.str "combined") (.cons "contents" (.arr .nil) .nil)

def heatmapBareDoc : JObj := .cons "type" (.str "heatmap") .nil

def heatmapBareModel : HeatmapTrack := ⟨none, none, none, none, none, none, none, none, none⟩

def unknownKindDoc : JObj := .cons "type" (.str "some-unknown-kind") .nil

def badWidthDoc : JObj :=
  .cons "type" (.str "some-unknown-kind") (.cons "width" (.str "abc") .nil)

def validViewDoc : JObj :=
  .cons "layout" (.obj .nil) (.cons "tracks" (.obj .nil) .nil)

def validViewModel : View :=
  ⟨⟨0, 0, 12, 12, none, none⟩, ⟨none, none, none, none, none, none, none⟩,
   none, none, none, none, none, none, none, none, none, none, (1, none)⟩

def emptyViewsDoc : J := .obj (.cons "views" (.arr .nil) .nil)

def oneViewDoc : J := .obj (.cons "views" (.arr (.cons (.obj validViewDoc) .nil)) .nil)

def posLockDoc : JObj :=
  .cons "uid" (.str "a")
    (.cons "view1" (.arr (.cons (.num 1) (.cons (.num 2) (.cons (.num 3) .nil)))) .nil)

def posLockModel : Lock := ⟨some "a", [("view1", (1, 2, 3))]⟩

def badPosLockDoc : JObj :=
  .cons "uid" (.str "a")
    (.cons "view1" (.arr (.cons (.num 1) (.cons (.num 2) .nil))) .nil)

def vslDoc : JObj :=
  .cons "view1" (.obj (.cons "view" (.str "v") (.cons "track" (.str "t") .nil))) .nil

def vslModel : ValueScaleLock := ⟨none, none, [("view1", ⟨"v", "t"⟩)]⟩

def badVslDoc : JObj :=
  .cons "view1" (.obj (.cons "view" (.str "v") .nil)) .nil

/- The minimal end-to-end viewconf of the spec: one view with one top-axis track
   and one center heatmap track, zero locks, no editable flag. -/

def topAxisTrackModel : EnumTrack :=
  ⟨"top-axis", none, none, none, none, none, none, none, none, none, none, none⟩

def minimalViewDoc : JObj :=
  .cons "layout" (.obj .nil)
    (.cons "tracks"
      (.obj (.cons "top" (.arr (.cons (.obj (.cons "type" (.str "top-axis") .nil)) .nil))
        (.cons "center" (.arr (.cons (.obj (.cons "type" (.str "heatmap") .nil)) .nil))
          .nil)))
      .nil)

def minimalDoc : J := .obj (.cons "views" (.arr (.cons (.obj minimalViewDoc) .nil)) .nil)

def minimalViewModel : View :=
  ⟨⟨0, 0, 12, 12, none, none⟩,
   ⟨none, none, some (.cons (.enum topAxisTrackModel) .nil), none,
    some (.cons (.heatmap heatmapBareModel) .nil), none, none⟩,
   none, none, none, none, none, none, none, none, none, none, (1, none)⟩

def minimalModel : Viewconf :=
  ⟨some true, some true, some true, none, none, none, none, some [minimalViewModel],
   none, none, none, none⟩

/- Three viewconf documents on which parse-serialise-reparse changes the model:
   an IndependentViewportProjectionTrack collapses to an EnumTrack, a null-valued
   retained extra field is dropped, and an explicitly null editable flag comes
   back as true. -/

def ivpViewconfDoc : J :=
  .obj (.cons "views"
    (.arr (.cons (.obj
      (.cons "layout" (.obj .nil)
        (.cons "tracks" (.obj (.cons "top" (.arr (.cons (.obj ivpReachableDoc) .nil)) .nil))
          .nil)))
      .nil))
    .nil)

def nullExtraViewconfDoc : J :=
  .obj (.cons "views"
    (.arr (.cons (.obj
      (.cons "layout" (.obj .nil)
        (.cons "tracks" (.obj (.cons "top"
          (.arr (.cons (.obj (.cons "type" (.str "combined")
            (.cons "contents" .null .nil))) .nil)) .nil))
          .nil)))
      .nil))
    .nil)

def nullEditableDoc : J := .obj (.cons "editable" .null .nil)

def exceptDecEq {ε α : Type} [DecidableEq ε] [DecidableEq α] :
    (a b : Except ε α) → Decidable (a = b)
  | .ok x, .ok y =>
      if h : x = y then isTrue (by rw [h]) else isFalse (by intro hc; cases hc; exact h rfl)
  | .error x, .error y =>
      if h : x = y then isTrue (by rw [h]) else isFalse (by intro hc; cases hc; exact h rfl)
  | .ok _, .error _ => isFalse (by intro hc; cases hc)
  | .error _, .ok _ => isFalse (by intro hc; cases hc)

instance {ε α : Type} [DecidableEq ε] [DecidableEq α] : DecidableEq (Except ε α) := exceptDecEq

/-- Does parse-serialise-reparse reproduce the parsed model for this document? -/
def roundTripsB (j : J) : Bool :=
  match Viewconf.parse j with
  | .ok m => decide (Viewconf.parse (.obj m.dict) = .ok m)
  | .error _ => false

def jaMem (j : J) : JArr → Prop
  | .nil => False
  | .cons x r => j = x ∨ jaMem j r

/- Sample schema fragments for the generation claims: the `axis` property of
   AxisSpecificLock as a flat enum (what pydantic v1 derives for
   Literal["x","y"]) and as a union of single-valued enums. -/

def axisEnumFragment : JObj :=
  .cons "enum" (.arr (.cons (.str "x") (.cons (.str "y") .nil))) .nil

def axisAnyOfFragment : JObj :=
  .cons "anyOf"
    (.arr (.cons (.obj (.cons "enum" (.arr (.cons (.str "x") .nil)) .nil))
      (.cons (.obj (.cons "enum" (.arr (.cons (.str "y") .nil)) .nil)) .nil)))
    .nil

def axisLockDerived (axisFragment : JObj) : JObj :=
  .cons "title" (.str "AxisSpecificLock")
    (.cons "type" (.str "object")
      (.cons "properties"
        (.obj (.cons "axis" (.obj axisFragment)
          (.cons "lock" (.obj (.cons "type" (.str "string") .nil)) .nil)))
        .nil))

/-- A sample pydantic-derived root schema for the Viewconf model, exercising the
    repository's `schema()` post-processing. -/
def sampleDerived : JObj :=
  .cons "title" (.str "HiGlass viewconf")
    (.cons "type" (.str "object")
      (.cons "properties"
        (.obj (.cons "views"
          (.obj (.cons "title" (.str "Views") (.cons "type" (.str "array") .nil)))
          (.cons "editable" (.obj (.cons "type" (.str "boolean") .nil)) .nil)))
        (.cons "definitions"
          (.obj (.cons "View" (.obj (.cons "title" (.str "View") .nil)) .nil))
          .nil)))

def sampleOut : JObj :=
  match schema sampleDerived with
  | some o => o
  | none => .nil

/-- Is this schema fragment a single flat enumeration, or a const?  (Never a
    multi-branch union-of-enums.) -/
def isFlatEnumOrConst : J → Bool
  | .obj (.cons "enum" (.arr _) .nil) => true
  | .obj (.cons "const" _ .nil) => true
  | _ => false

/-- Extract the `axis` property fragment of a generated schema document. -/
def axisPropertyOf (out : JObj) : Option J :=
  match out.lookup "properties" with
  | some (.obj props) => props.lookup "axis"
  | _ => none

/- ===========================================================================
   Theorems.  Infrastructure lemmas first, then per-model round-trip lemmas,
   then the claim theorems. -/

@[simp] theorem eok_bind {α β : Type} (a : α) (f : α → Except String β) :
    (Except.ok a >>= f) = f a := rfl

@[simp] theorem eerr_bind {α β : Type} (e : String) (f : α → Except String β) :
    ((Except.error e : Except String α) >>= f) = .error e := rfl

@[simp] theorem emap_ok {α β : Type} (f : α → β) (a : α) :
    (Except.ok a : Except String α).map f = .ok (f a) := rfl

@[simp] theorem emap_err {α β : Type} (f : α → β) (e : String) :
    (Except.error e : Except String α).map f = .error e := rfl

theorem bind_ok_iff {α β : Type} (e : Except String α) (f : α → Except String β) (b : β) :
    (e >>= f) = .ok b ↔ ∃ a, e = .ok a ∧ f a = .ok b := by
  cases e <;> simp

theorem map_ok_iff {α β : Type} (e : Except String α) (f : α → β) (b : β) :
    e.map f = .ok b ↔ ∃ a, e = .ok a ∧ f a = b := by
  cases e <;> simp [Except.map]

mutual
theorem J.strip_of_noNullsJ : ∀ j : J, j.noNulls = true → j.strip = j
  | .null => fun _ => rfl
  | .bool _ => fun _ => rfl
  | .num _ => fun _ => rfl
  | .str _ => fun _ => rfl
  | .arr xs => fun h => by
      have hx := JArr.strip_of_noNullsArr xs (by simpa [J.noNulls] using h)
      simp [J.strip, hx]
  | .obj kvs => fun h => by
      have hx := JObj.strip_of_noNullsObj kvs (by simpa [J.noNulls] using h)
      simp [J.strip, hx]
theorem JArr.strip_of_noNullsArr : ∀ xs : JArr, xs.noNulls = true → xs.strip = xs
  | .nil => fun _ => rfl
  | .cons j r => fun h => by
      have h1 : j.noNulls = true ∧ r.noNulls = true := by
        simpa [JArr.noNulls, Bool.and_eq_true] using h
      have hj := J.strip_of_noNullsJ j h1.1
      have hr := JArr.strip_of_noNullsArr r h1.2
      simp [JArr.strip, hj, hr]
theorem JObj.strip_of_noNullsObj : ∀ o : JObj, o.noNulls = true → o.strip = o
  | .nil => fun _ => rfl
  | .cons k v r => fun h => by
      have h1 : (v.isNull = false ∧ v.noNulls = true) ∧ r.noNulls = true := by
        simpa [JObj.noNulls, Bool.and_eq_true] using h
      have hv := J.strip_of_noNullsJ v h1.1.2
      have hr := JObj.strip_of_noNullsObj r h1.2
      simp [JObj.strip, h1.1.1, hv, hr]
end

theorem J.jsize_pos : ∀ j : J, 1 ≤ j.jsize := by
  intro j
  cases j <;> simp [J.jsize]

theorem JObj.lookup_jsize : ∀ (o : JObj) (k : String) (v : J),
    o.lookup k = some v → v.jsize ≤ o.josize
  | .nil, k, v => by intro h; simp [JObj.lookup] at h
  | .cons k' v' r, k, v => by
      intro h
      simp only [JObj.lookup] at h
      by_cases hk : k' = k
      · rw [if_pos hk] at h
        cases h
        simp only [JObj.josize]
        omega
      · rw [if_neg hk] at h
        have := JObj.lookup_jsize r k v h
        simp [JObj.josize]
        omega

theorem jaMem_jasize : ∀ (xs : JArr) (j : J), jaMem j xs → j.jsize ≤ xs.jasize
  | .nil, j => by intro h; cases h
  | .cons x r, j => by
      intro h
      cases h with
      | inl he => subst he; simp only [JArr.jasize]; omega
      | inr hm => have := jaMem_jasize r j hm; simp only [JArr.jasize]; omega

/- Lookup over serialised field lists. -/

theorem lookup_emit_notmem : ∀ (fs : List (String × Option J)) (key : String),
    key ∉ fs.map Prod.fst → (emit fs).lookup key = none := by
  intro fs
  induction fs with
  | nil => intro key _; rfl
  | cons p r ih =>
      intro key h
      obtain ⟨k, v⟩ := p
      simp only [List.map_cons, List.mem_cons] at h
      push_neg at h
      cases v with
      | none => exact ih key h.2
      | some w =>
          simp only [emit, JObj.lookup]
          rw [if_neg (fun he => h.1 he.symm)]
          exact ih key h.2

theorem lookup_emit : ∀ (fs : List (String × Option J)) (key : String),
    (fs.map Prod.fst).Nodup → (emit fs).lookup key = (flook fs key).join := by
  intro fs
  induction fs with
  | nil => intro key _; rfl
  | cons p r ih =>
      intro key hnd
      obtain ⟨k, v⟩ := p
      simp only [List.map_cons, List.nodup_cons] at hnd
      by_cases hk : k = key
      · subst hk
        cases v with
        | none =>
            simp only [emit, flook, if_pos rfl, Option.join]
            exact lookup_emit_notmem r k hnd.1
        | some w => simp [emit, flook, JObj.lookup]
      · cases v with
        | none => simpa [emit, flook, if_neg hk] using ih key hnd.2
        | some w => simpa [emit, flook, JObj.lookup, if_neg hk] using ih key hnd.2

theorem JObj.lookup_append : ∀ (o₁ o₂ : JObj) (k : String),
    (o₁.append o₂).lookup k = (o₁.lookup k).or (o₂.lookup k)
  | .nil, o₂, k => rfl
  | .cons k' v r, o₂, k => by
      by_cases hk : k' = k
      · simp [JObj.append, JObj.lookup, if_pos hk]
      · simp [JObj.append, JObj.lookup, if_neg hk, JObj.lookup_append r o₂ k]

theorem JObj.lookup_none_of_keys : ∀ (o : JObj) (k : String),
    k ∉ o.keys → o.lookup k = none
  | .nil, k => fun _ => rfl
  | .cons k' v r, k => by
      intro h
      simp only [JObj.keys, List.mem_cons] at h
      push_neg at h
      simp only [JObj.lookup]
      rw [if_neg (fun he => h.1 he.symm)]
      exact JObj.lookup_none_of_keys r k h.2

theorem JObj.lookup_extras : ∀ (o : JObj) (decl : List String) (k : String),
    k ∉ decl → (o.extras decl).lookup k = o.lookup k
  | .nil, decl, k => fun _ => rfl
  | .cons k' v r, decl, k => by
      intro hk
      simp only [JObj.extras]
      by_cases hd : k' ∈ decl
      · rw [if_pos hd]
        have hne : k' ≠ k := fun he => hk (he ▸ hd)
        simp only [JObj.lookup, if_neg hne]
        exact JObj.lookup_extras r decl k hk
      · rw [if_neg hd]
        simp only [JObj.lookup]
        by_cases he : k' = k
        · simp [if_pos he]
        · simp only [if_neg he]
          exact JObj.lookup_extras r decl k hk

theorem JObj.extras_keys : ∀ (o : JObj) (decl : List String) (k : String),
    k ∈ (o.extras decl).keys → k ∉ decl
  | .nil, decl, k => by intro h; simp [JObj.extras, JObj.keys] at h
  | .cons k' v r, decl, k => by
      intro h
      simp only [JObj.extras] at h
      by_cases hd : k' ∈ decl
      · rw [if_pos hd] at h
        exact JObj.extras_keys r decl k h
      · rw [if_neg hd] at h
        simp only [JObj.keys, List.mem_cons] at h
        cases h with
        | inl he => subst he; exact hd
        | inr hm => exact JObj.extras_keys r decl k hm

theorem JObj.extras_append : ∀ (o₁ o₂ : JObj) (decl : List String),
    (o₁.append o₂).extras decl = (o₁.extras decl).append (o₂.extras decl)
  | .nil, o₂, decl => rfl
  | .cons k v r, o₂, decl => by
      by_cases hd : k ∈ decl
      · simp [JObj.append, JObj.extras, if_pos hd, JObj.extras_append r o₂ decl]
      · simp [JObj.append, JObj.extras, if_neg hd, JObj.extras_append r o₂ decl]

theorem JObj.extras_all_in : ∀ (o : JObj) (decl : List String),
    (∀ k ∈ o.keys, k ∈ decl) → o.extras decl = .nil
  | .nil, decl => fun _ => rfl
  | .cons k v r, decl => by
      intro h
      have hk : k ∈ decl := h k (by simp [JObj.keys])
      simp only [JObj.extras, if_pos hk]
      exact JObj.extras_all_in r decl (fun k' hk' => h k' (by simp [JObj.keys, hk']))

theorem JObj.extras_none_in : ∀ (o : JObj) (decl : List String),
    (∀ k ∈ o.keys, k ∉ decl) → o.extras decl = o
  | .nil, decl => fun _ => rfl
  | .cons k v r, decl => by
      intro h
      have hk : k ∉ decl := h k (by simp [JObj.keys])
      simp only [JObj.extras, if_neg hk]
      rw [JObj.extras_none_in r decl (fun k' hk' => h k' (by simp [JObj.keys, hk']))]

theorem emit_keys : ∀ (fs : List (String × Option J)) (k : String),
    k ∈ (emit fs).keys → k ∈ fs.map Prod.fst := by
  intro fs
  induction fs with
  | nil => intro k h; simp [emit, JObj.keys] at h
  | cons p r ih =>
      intro k h
      obtain ⟨k', v⟩ := p
      cases v with
      | none =>
          simp only [emit] at h
          simp only [List.map_cons, List.mem_cons]
          exact Or.inr (ih k h)
      | some w =>
          simp only [emit, JObj.keys, List.mem_cons] at h
          simp only [List.map_cons, List.mem_cons]
          cases h with
          | inl he => exact Or.inl he
          | inr hm => exact Or.inr (ih k hm)

theorem JObj.allKeysIn_of : ∀ (o : JObj) (decl : List String),
    (∀ k ∈ o.keys, k ∈ decl) → o.allKeysIn decl = true
  | .nil, decl => fun _ => rfl
  | .cons k v r, decl => by
      intro h
      have hk : k ∈ decl := h k (by simp [JObj.keys])
      simp only [JObj.allKeysIn, Bool.and_eq_true, decide_eq_true_eq]
      exact ⟨hk, JObj.allKeysIn_of r decl (fun k' hk' => h k' (by simp [JObj.keys, hk']))⟩

theorem JObj.allKeysIn_false : ∀ (o : JObj) (decl : List String) (k : String),
    k ∈ o.keys → k ∉ decl → o.allKeysIn decl = false
  | .nil, decl, k => by intro h _; simp [JObj.keys] at h
  | .cons k' v r, decl, k => by
      intro h hk
      simp only [JObj.keys, List.mem_cons] at h
      simp only [JObj.allKeysIn, Bool.and_eq_false_iff]
      cases h with
      | inl he => subst he; exact Or.inl (by simp [hk])
      | inr hm => exact Or.inr (JObj.allKeysIn_false r decl k hm hk)

/- Decoder/encoder agreement: decoding a field the serialiser emitted gives the
   stored value back. -/

theorem decOptStr_enc (u : Option String) (k : String) :
    decOptStr (u.map J.str) k = .ok u := by cases u <;> rfl

theorem decOptBool_enc (u : Option Bool) (k : String) :
    decOptBool (u.map J.bool) k = .ok u := by cases u <;> rfl

theorem decOptNum_enc (u : Option Rat) (k : String) :
    decOptNum (u.map J.num) k = .ok u := by cases u <;> rfl

theorem decOptInt_enc (u : Option Int) (k : String) :
    decOptInt (u.map jint) k = .ok u := by
  cases u with
  | none => rfl
  | some i => simp [decOptInt, jint]

theorem decIntD_enc (d : Int) (i : Int) (k : String) :
    decIntD d (some (jint i)) k = .ok i := by
  simp [decIntD, jint]

theorem decOptObj_enc (u : Option JObj) (k : String) :
    decOptObj (u.map J.obj) k = .ok u := by cases u <;> rfl

theorem decOptArr_enc (u : Option JArr) (k : String) :
    decOptArr (u.map J.arr) k = .ok u := by cases u <;> rfl

theorem decStrListArr_enc (l : List String) (k : String) :
    decStrListArr (JArr.ofList (l.map J.str)) k = .ok l := by
  induction l with
  | nil => rfl
  | cons s r ih => simp [JArr.ofList, decStrListArr, ih]

theorem decOptStrList_enc (u : Option (List String)) (k : String) :
    decOptStrList (u.map encStrList) k = .ok u := by
  cases u with
  | none => rfl
  | some l => simp [decOptStrList, encStrList, decStrListArr_enc]

theorem decOptDomain_enc (u : Option (Rat × Rat)) (k : String) :
    decOptDomain (u.map encDomain) k = .ok u := by
  cases u with
  | none => rfl
  | some d => obtain ⟨a, b⟩ := d; rfl

theorem decZoomLimits_enc (z : Rat × Option Rat) (k : String) :
    decZoomLimits (some (encZoomLimits z)) k = .ok z := by
  obtain ⟨a, b⟩ := z
  cases b <;> rfl

theorem decIntRow_enc (l : List Int) (k : String) :
    decIntRow (JArr.ofList (l.map jint)) k = .ok l := by
  induction l with
  | nil => rfl
  | cons i r ih => simp [JArr.ofList, decIntRow, jint, ih]

theorem decIntRows_enc (rs : List (List Int)) (k : String) :
    decIntRows (JArr.ofList (rs.map encIntRow)) k = .ok rs := by
  induction rs with
  | nil => rfl
  | cons row r ih => simp [JArr.ofList, encIntRow, decIntRows, decIntRow_enc, ih]

theorem decOptIntRows_enc (u : Option (List (List Int))) (k : String) :
    decOptIntRows (u.map encIntRows) k = .ok u := by
  cases u with
  | none => rfl
  | some rows =>
      show Except.map some (decIntRows (JArr.ofList (rows.map encIntRow)) k) = .ok (some rows)
      rw [decIntRows_enc rows k]
      rfl

theorem decOptStrOrList_enc (u : Option StrOrList) (k : String) :
    decOptStrOrList (u.map encStrOrList) k = .ok u := by
  cases u with
  | none => rfl
  | some v =>
      cases v with
      | one s => rfl
      | many l => simp [decOptStrOrList, encStrOrList, encStrList, decStrListArr_enc]

theorem decBoolDefTrue_enc (b : Bool) (k : String) :
    decBoolDefTrue (some (J.bool b)) k = .ok (some b) := rfl

theorem decOptModel_enc {α : Type} (f : JObj → Except String α) (g : α → JObj)
    (u : Option α) (k : String) (h : ∀ a, u = some a → f (g a) = .ok a) :
    decOptModel f (u.map (fun a => .obj (g a))) k = .ok u := by
  cases u with
  | none => rfl
  | some a => simp [decOptModel, h a rfl]

theorem decModel_enc {α : Type} (f : JObj → Except String α) (g : α → JObj)
    (a : α) (k : String) (h : f (g a) = .ok a) :
    decModel f (some (.obj (g a))) k = .ok a := by
  simp [decModel, h]

theorem decListArr_enc {α : Type} (f : J → Except String α) (g : α → J)
    (l : List α) (h : ∀ a ∈ l, f (g a) = .ok a) :
    decListArr f (JArr.ofList (l.map g)) = .ok l := by
  induction l with
  | nil => rfl
  | cons a r ih =>
      simp only [List.map_cons, JArr.ofList, decListArr]
      rw [h a (by simp), ih (fun a' ha' => h a' (by simp [ha']))]
      rfl

theorem decOptListOf_enc {α : Type} (f : J → Except String α) (g : α → J)
    (u : Option (List α)) (k : String) (h : ∀ l a, u = some l → a ∈ l → f (g a) = .ok a) :
    decOptListOf f (u.map (fun l => .arr (JArr.ofList (l.map g)))) k = .ok u := by
  cases u with
  | none => rfl
  | some l =>
      show Except.map some (decListArr f (JArr.ofList (l.map g))) = .ok (some l)
      rw [decListArr_enc f g l (fun a ha => h l a rfl ha)]
      rfl

theorem decPairsObj_enc {α : Type} (f : J → Except String α) (g : α → J)
    (l : List (String × α)) (h : ∀ p ∈ l, f (g p.2) = .ok p.2) :
    decPairsObj f (encPairs g l) = .ok l := by
  induction l with
  | nil => rfl
  | cons p r ih =>
      obtain ⟨k, a⟩ := p
      simp only [encPairs, decPairsObj]
      rw [h ⟨k, a⟩ (by simp), ih (fun p' hp' => h p' (by simp [hp']))]
      rfl

theorem decDictD_enc {α : Type} (f : J → Except String α) (g : α → J)
    (l : List (String × α)) (k : String) (h : ∀ p ∈ l, f (g p.2) = .ok p.2) :
    decDictD f (some (.obj (encPairs g l))) k = .ok l := by
  simp only [decDictD]
  exact decPairsObj_enc f g l h

/- Invariance of the union parser under extra fuel. -/

theorem parseArrWith_congr (f g : J → Except String Track) :
    ∀ js : JArr, (∀ j, jaMem j js → f j = g j) → parseArrWith f js = parseArrWith g js
  | .nil => fun _ => rfl
  | .cons j r => fun h => by
      simp only [parseArrWith]
      rw [h j (Or.inl rfl), parseArrWith_congr f g r (fun j' hj' => h j' (Or.inr hj'))]

theorem parseTrackF_congr : ∀ (s : Nat) (j : J) (n m : Nat),
    j.jsize ≤ s → j.jsize ≤ n → j.jsize ≤ m → parseTrackF n j = parseTrackF m j := by
  intro s
  induction s with
  | zero => intro j n m h1 _ _; have := J.jsize_pos j; omega
  | succ s ih =>
      intro j n m h1 h2 h3
      have hp := J.jsize_pos j
      match n, m with
      | 0, _ => omega
      | _ + 1, 0 => omega
      | n' + 1, m' + 1 =>
        cases j with
        | null => rfl
        | bool _ => rfl
        | num _ => rfl
        | str _ => rfl
        | arr _ => rfl
        | obj kvs =>
            simp only [parseTrackF]
            have hb : (J.obj kvs).jsize = kvs.josize + 1 := rfl
            rw [hb] at h1 h2 h3
            have hsz : kvs.josize + 1 ≤ s + 1 := h1
            have hcomb :
                (match kvs.lookup "contents" with
                 | some (.arr js) => do
                     let ts ← parseArrWith (parseTrackF n') js
                     let pos ← decOptStr (kvs.lookup "position") "position"
                     .ok (CombinedTrack.mk ts pos)
                 | some _ => .error "contents: list expected"
                 | none => (.error "contents: field required" : Except String CombinedTrack)) =
                (match kvs.lookup "contents" with
                 | some (.arr js) => do
                     let ts ← parseArrWith (parseTrackF m') js
                     let pos ← decOptStr (kvs.lookup "position") "position"
                     .ok (CombinedTrack.mk ts pos)
                 | some _ => .error "contents: list expected"
                 | none => .error "contents: field required") := by
              cases hl : kvs.lookup "contents" with
              | none => rfl
              | some v =>
                  cases v with
                  | arr js =>
                      have hjs : js.jasize + 1 ≤ kvs.josize := by
                        have := JObj.lookup_jsize kvs "contents" (.arr js) hl
                        simpa [J.jsize] using this
                      have harr : parseArrWith (parseTrackF n') js =
                          parseArrWith (parseTrackF m') js := by
                        apply parseArrWith_congr
                        intro j' hj'
                        have hj'sz := jaMem_jasize js j' hj'
                        exact ih j' n' m' (by omega) (by omega) (by omega)
                      simp only [harr]
                  | null => rfl
                  | bool _ => rfl
                  | num _ => rfl
                  | str _ => rfl
                  | obj _ => rfl
            rw [hcomb]

theorem parseTrackF_eq_parseTrack (n : Nat) (j : J) (h : j.jsize ≤ n) :
    parseTrackF n j = parseTrack j :=
  parseTrackF_congr n j n j.jsize h h le_rfl

/-- The one-step unfolding of `parseTrack` on an object: the union resolution
    chain with full recursive parsing of CombinedTrack contents. -/
theorem parseTrack_obj (kvs : JObj) : parseTrack (.obj kvs) = trackChain kvs := by
  show parseTrackF ((J.obj kvs).jsize) (.obj kvs) = trackChain kvs
  have hsz : (J.obj kvs).jsize = kvs.josize + 1 := rfl
  rw [hsz]
  simp only [parseTrackF, trackChain, tryCombined]
  have hcomb :
      (match kvs.lookup "contents" with
       | some (.arr js) => do
           let ts ← parseArrWith (parseTrackF kvs.josize) js
           let pos ← decOptStr (kvs.lookup "position") "position"
           .ok (CombinedTrack.mk ts pos)
       | some _ => .error "contents: list expected"
       | none => (.error "contents: field required" : Except String CombinedTrack)) =
      (match kvs.lookup "contents" with
       | some (.arr js) => do
           let ts ← parseTrackArr js
           let pos ← decOptStr (kvs.lookup "position") "position"
           .ok (CombinedTrack.mk ts pos)
       | some _ => .error "contents: list expected"
       | none => .error "contents: field required") := by
    cases hl : kvs.lookup "contents" with
    | none => rfl
    | some v =>
        cases v with
        | arr js =>
            have hjs : js.jasize + 1 ≤ kvs.josize := by
              have := JObj.lookup_jsize kvs "contents" (.arr js) hl
              simpa [J.jsize] using this
            have harr : parseArrWith (parseTrackF kvs.josize) js = parseTrackArr js := by
              apply parseArrWith_congr
              intro j' hj'
              have hj'sz := jaMem_jasize js j' hj'
              exact parseTrackF_eq_parseTrack kvs.josize j' (by omega)
            simp only [harr, parseTrackArr]
        | null => rfl
        | bool _ => rfl
        | num _ => rfl
        | str _ => rfl
        | obj _ => rfl
  rw [hcomb]

theorem parseTrack_not_obj_null : parseTrack .null = .error "track: dict expected" := rfl

/- Per-model round-trip lemmas: parsing the serialised `dict()` of a model
   yields the model back. -/

theorem strip_optArr (u : Option JArr) (h : optArrNoNulls u = true) :
    u.map (fun xs => J.arr xs.strip) = u.map J.arr := by
  cases u with
  | none => rfl
  | some xs =>
      have hx : xs.strip = xs := JArr.strip_of_noNullsArr xs (by simpa [optArrNoNulls] using h)
      show some (J.arr xs.strip) = some (J.arr xs)
      rw [hx]

theorem strip_optObj (u : Option JObj) (h : optObjNoNulls u = true) :
    u.map (fun o => J.obj o.strip) = u.map J.obj := by
  cases u with
  | none => rfl
  | some o =>
      have hx : o.strip = o := JObj.strip_of_noNullsObj o (by simpa [optObjNoNulls] using h)
      show some (J.obj o.strip) = some (J.obj o)
      rw [hx]

theorem Data.dict_parse_data : ∀ d : Data, d.clean = true → Data.parse d.dict = .ok d := by
  intro d hc
  obtain ⟨ty, url, srv, ft, ch, ti, tl⟩ := d
  simp only [Data.clean, Bool.and_eq_true] at hc
  have hch := strip_optArr ch hc.1.1
  have hti := strip_optObj ti hc.1.2
  have htl := strip_optObj tl hc.2
  simp [Data.parse, Data.dict, hch, hti, htl, lookup_emit, flook,
    decOptStr_enc, decOptArr_enc, decOptObj_enc]

theorem decOptModel_enc_data (u : Option Data) (k : String) (h : optDataClean u = true) :
    decOptModel Data.parse (u.map (fun d => J.obj d.dict)) k = .ok u := by
  cases u with
  | none => rfl
  | some d =>
      have hd : Data.parse d.dict = .ok d :=
        Data.dict_parse_data d (by simpa [optDataClean] using h)
      show (Data.parse d.dict).map some = .ok (some d)
      rw [hd]
      rfl

theorem OverlayOptions.dict_parse_overlayOptions : ∀ t : OverlayOptions,
    OverlayOptions.parse t.dict = .ok t := by
  intro t
  obtain ⟨e, mw, f, fo, s, so, sw, sp, o, oo, ow, op⟩ := t
  simp [OverlayOptions.parse, OverlayOptions.dict, lookup_emit, flook,
    decOptStr_enc, decOptNum_enc, decOptIntRows_enc, decOptStrOrList_enc]

theorem Overlay.dict_parse_overlay : ∀ t : Overlay, Overlay.parse t.dict = .ok t := by
  intro t
  obtain ⟨ty, uid, cip, inc, opts⟩ := t
  have hopts : decOptModel OverlayOptions.parse
      (opts.map (fun x => J.obj x.dict)) "options" = .ok opts :=
    decOptModel_enc OverlayOptions.parse OverlayOptions.dict opts "options"
      (fun a _ => OverlayOptions.dict_parse_overlayOptions a)
  simp [Overlay.parse, Overlay.dict, lookup_emit, flook,
    decOptStr_enc, decOptStrList_enc, hopts]

theorem GenomePositionSearchBox.dict_parse_gpsb : ∀ t : GenomePositionSearchBox,
    GenomePositionSearchBox.parse t.dict = .ok t := by
  intro t
  obtain ⟨a, b, c, d, v⟩ := t
  simp [GenomePositionSearchBox.parse, GenomePositionSearchBox.dict, lookup_emit, flook,
    decOptStr_enc, decOptBool_enc]

theorem Layout.dict_parse_layout : ∀ t : Layout, Layout.parse t.dict = .ok t := by
  intro t
  obtain ⟨x, y, w, h, mv, st⟩ := t
  simp [Layout.parse, Layout.dict, lookup_emit, flook,
    decIntD_enc, decOptBool_enc]

theorem ValueScaleLockEntry.dict_parse_vslEntry : ∀ e : ValueScaleLockEntry,
    ValueScaleLockEntry.parse e.dict = .ok e := by
  intro e
  obtain ⟨v, t⟩ := e
  simp [ValueScaleLockEntry.parse, ValueScaleLockEntry.dict, JObj.allKeysIn,
    JObj.lookup, decStr]

theorem AxisSpecificLock.dict_parse_axisLock (t : AxisSpecificLock)
    (h : t.axis = "x" ∨ t.axis = "y") : AxisSpecificLock.parse t.dict = .ok t := by
  obtain ⟨a, l⟩ := t
  simp only at h
  cases h with
  | inl hh =>
      subst hh
      simp [AxisSpecificLock.parse, AxisSpecificLock.dict, lookup_emit, flook, decStr]
  | inr hh =>
      subst hh
      simp [AxisSpecificLock.parse, AxisSpecificLock.dict, lookup_emit, flook, decStr]

/- Inversion helpers for parse hypotheses. -/

theorem decOptModel_ok {α : Type} (f : JObj → Except String α) (l : Option J) (k : String)
    (u : Option α) (h : decOptModel f l k = .ok u) :
    u = none ∨ ∃ o a, l = some (.obj o) ∧ f o = .ok a ∧ u = some a := by
  cases l with
  | none => cases h; exact Or.inl rfl
  | some j =>
      cases j with
      | null => cases h; exact Or.inl rfl
      | obj o =>
          rw [show decOptModel f (some (.obj o)) k = (f o).map some from rfl, map_ok_iff] at h
          obtain ⟨a, ha, hu⟩ := h
          exact Or.inr ⟨o, a, rfl, ha, hu.symm⟩
      | bool _ => cases h
      | num _ => cases h
      | str _ => cases h
      | arr _ => cases h

theorem decModel_ok {α : Type} (f : JObj → Except String α) (l : Option J) (k : String)
    (a : α) (h : decModel f l k = .ok a) : ∃ o, l = some (.obj o) ∧ f o = .ok a := by
  cases l with
  | none => cases h
  | some j =>
      cases j with
      | obj o => exact ⟨o, rfl, h⟩
      | null => cases h
      | bool _ => cases h
      | num _ => cases h
      | str _ => cases h
      | arr _ => cases h

theorem decListArr_sources {α : Type} (f : J → Except String α) :
    ∀ (js : JArr) (l : List α), decListArr f js = .ok l → ∀ a ∈ l, ∃ j, f j = .ok a
  | .nil => by
      intro l h a ha
      cases h
      cases ha
  | .cons j r => by
      intro l h a ha
      simp only [decListArr, bind_ok_iff] at h
      obtain ⟨x, hx, l2, hl2, he⟩ := h
      cases he
      cases ha with
      | head => exact ⟨j, hx⟩
      | tail _ hm => exact decListArr_sources f r l2 hl2 a hm

theorem decPairsObj_sources {α : Type} (f : J → Except String α) :
    ∀ (o : JObj) (l : List (String × α)), decPairsObj f o = .ok l →
      ∀ p ∈ l, ∃ v, f v = .ok p.2
  | .nil => by
      intro l h p hp
      cases h
      cases hp
  | .cons k v r => by
      intro l h p hp
      simp only [decPairsObj, bind_ok_iff] at h
      obtain ⟨x, hx, l2, hl2, he⟩ := h
      cases he
      cases hp with
      | head => exact ⟨v, hx⟩
      | tail _ hm => exact decPairsObj_sources f r l2 hl2 p hm

theorem decDictD_sources {α : Type} (f : J → Except String α) (l : Option J) (k : String)
    (xs : List (String × α)) (h : decDictD f l k = .ok xs) :
    ∀ p ∈ xs, ∃ v, f v = .ok p.2 := by
  cases l with
  | none =>
      cases h
      intro p hp
      cases hp
  | some j =>
      cases j with
      | obj o => exact decPairsObj_sources f o xs h
      | null => cases h
      | bool _ => cases h
      | num _ => cases h
      | str _ => cases h
      | arr _ => cases h

/- Lock round-trips. -/

theorem encPairs_keys {α : Type} (g : α → J) :
    ∀ l : List (String × α), (encPairs g l).keys = l.map Prod.fst := by
  intro l
  induction l with
  | nil => rfl
  | cons p r ih => obtain ⟨k, a⟩ := p; simp [encPairs, JObj.keys, ih]

theorem lockEntriesOf_keys : ∀ (o : JObj) (es : List (String × (Rat × Rat × Rat))),
    lockEntriesOf o = .ok es → ∀ p ∈ es, p.1 ∉ Lock.fieldNames
  | .nil => by
      intro es h p hp
      cases h
      cases hp
  | .cons k v r => by
      intro es h p hp
      simp only [lockEntriesOf] at h
      by_cases hk : k ∈ Lock.fieldNames
      · rw [if_pos hk] at h
        exact lockEntriesOf_keys r es h p hp
      · rw [if_neg hk] at h
        split at h
        · simp only [bind_ok_iff, Except.ok.injEq] at h
          obtain ⟨l, hl, he⟩ := h
          subst he
          cases hp with
          | head => exact hk
          | tail _ hm => exact lockEntriesOf_keys r l hl p hm
        · cases h

theorem lockEntriesOf_skips (fs : List (String × Option J)) (o : JObj)
    (h : ∀ k ∈ fs.map Prod.fst, k ∈ Lock.fieldNames) :
    lockEntriesOf ((emit fs).append o) = lockEntriesOf o := by
  induction fs with
  | nil => rfl
  | cons p r ih =>
      obtain ⟨k, v⟩ := p
      have hk : k ∈ Lock.fieldNames := h k (by simp)
      cases v with
      | none => exact ih (fun k' hk' => h k' (by simp [hk']))
      | some w =>
          show lockEntriesOf (.cons k w ((emit r).append o)) = lockEntriesOf o
          simp only [lockEntriesOf, if_pos hk]
          exact ih (fun k' hk' => h k' (by simp [hk']))

theorem lockEntriesOf_enc : ∀ es : List (String × (Rat × Rat × Rat)),
    (∀ p ∈ es, p.1 ∉ Lock.fieldNames) →
    lockEntriesOf (encPairs encLockEntry es) = .ok es := by
  intro es
  induction es with
  | nil => intro _; rfl
  | cons p r ih =>
      intro h
      obtain ⟨k, e⟩ := p
      obtain ⟨a, b, c⟩ := e
      have hk : k ∉ Lock.fieldNames := h (k, (a, b, c)) (by simp)
      simp [encPairs, encLockEntry, lockEntriesOf, hk,
        ih (fun p' hp' => h p' (by simp [hp']))]

theorem Lock.rt_lock (o : JObj) (l : Lock) (hp : Lock.parse o = .ok l) :
    Lock.parse l.dict = .ok l := by
  obtain ⟨uid, es⟩ := l
  simp only [Lock.parse, bind_ok_iff, Except.ok.injEq, Lock.mk.injEq] at hp
  obtain ⟨es0, hes, uid0, huid, hue, hee⟩ := hp
  subst hue
  subst hee
  have hkeys := lockEntriesOf_keys o es0 hes
  have hnotuid : "uid" ∉ (encPairs encLockEntry es0).keys := by
    rw [encPairs_keys]
    intro hmem
    obtain ⟨p, hp1, hp2⟩ := List.mem_map.mp hmem
    exact hkeys p hp1 (by rw [hp2]; simp [Lock.fieldNames])
  have hdict : Lock.dict ⟨uid0, es0⟩ =
      (emit [("uid", uid0.map J.str)]).append (encPairs encLockEntry es0) := rfl
  have hlu : (Lock.dict ⟨uid0, es0⟩).lookup "uid" = uid0.map J.str := by
    rw [hdict, JObj.lookup_append, lookup_emit _ _ (by simp)]
    cases uid0 with
    | none =>
        show Option.or none _ = none
        rw [Option.none_or]
        exact JObj.lookup_none_of_keys _ _ hnotuid
    | some s => rfl
  have hskips : lockEntriesOf (Lock.dict ⟨uid0, es0⟩) = .ok es0 := by
    rw [hdict, lockEntriesOf_skips _ _ (by simp [Lock.fieldNames])]
    exact lockEntriesOf_enc es0 hkeys
  simp [Lock.parse, hskips, hlu, decOptStr_enc]

theorem vslEntriesOf_keys : ∀ (o : JObj) (es : List (String × ValueScaleLockEntry)),
    vslEntriesOf o = .ok es → ∀ p ∈ es, p.1 ∉ ValueScaleLock.fieldNames
  | .nil => by
      intro es h p hp
      cases h
      cases hp
  | .cons k v r => by
      intro es h p hp
      simp only [vslEntriesOf] at h
      by_cases hk : k ∈ ValueScaleLock.fieldNames
      · rw [if_pos hk] at h
        exact vslEntriesOf_keys r es h p hp
      · rw [if_neg hk] at h
        split at h
        · simp only [bind_ok_iff, Except.ok.injEq] at h
          obtain ⟨e, he, l, hl, hee⟩ := h
          subst hee
          cases hp with
          | head => exact hk
          | tail _ hm => exact vslEntriesOf_keys r l hl p hm
        · cases h

theorem vslEntriesOf_skips (fs : List (String × Option J)) (o : JObj)
    (h : ∀ k ∈ fs.map Prod.fst, k ∈ ValueScaleLock.fieldNames) :
    vslEntriesOf ((emit fs).append o) = vslEntriesOf o := by
  induction fs with
  | nil => rfl
  | cons p r ih =>
      obtain ⟨k, v⟩ := p
      have hk : k ∈ ValueScaleLock.fieldNames := h k (by simp)
      cases v with
      | none => exact ih (fun k' hk' => h k' (by simp [hk']))
      | some w =>
          show vslEntriesOf (.cons k w ((emit r).append o)) = vslEntriesOf o
          simp only [vslEntriesOf, if_pos hk]
          exact ih (fun k' hk' => h k' (by simp [hk']))

theorem vslEntriesOf_enc : ∀ es : List (String × ValueScaleLockEntry),
    (∀ p ∈ es, p.1 ∉ ValueScaleLock.fieldNames) →
    vslEntriesOf (encPairs (fun e => .obj e.dict) es) = .ok es := by
  intro es
  induction es with
  | nil => intro _; rfl
  | cons p r ih =>
      intro h
      obtain ⟨k, e⟩ := p
      have hk : k ∉ ValueScaleLock.fieldNames := h (k, e) (by simp)
      simp [encPairs, vslEntriesOf, hk, ValueScaleLockEntry.dict_parse_vslEntry,
        ih (fun p' hp' => h p' (by simp [hp']))]

theorem ValueScaleLock.rt_vsl (o : JObj) (l : ValueScaleLock)
    (hp : ValueScaleLock.parse o = .ok l) : ValueScaleLock.parse l.dict = .ok l := by
  obtain ⟨uid, ioff, es⟩ := l
  simp only [ValueScaleLock.parse, bind_ok_iff, Except.ok.injEq,
    ValueScaleLock.mk.injEq] at hp
  obtain ⟨es0, hes, uid0, huid, ioff0, hioff, hue, hie, hee⟩ := hp
  subst hue
  subst hie
  subst hee
  have hkeys := vslEntriesOf_keys o es0 hes
  have hnotk : ∀ k ∈ ValueScaleLock.fieldNames,
      k ∉ (encPairs (fun e : ValueScaleLockEntry => J.obj e.dict) es0).keys := by
    intro k hkf hmem
    rw [encPairs_keys] at hmem
    obtain ⟨p, hp1, hp2⟩ := List.mem_map.mp hmem
    exact hkeys p hp1 (by rw [hp2]; exact hkf)
  have hdict : ValueScaleLock.dict ⟨uid0, ioff0, es0⟩ =
      (emit [("uid", uid0.map J.str), ("ignoreOffScreenValues", ioff0.map J.bool)]).append
        (encPairs (fun e => .obj e.dict) es0) := rfl
  have hlu : (ValueScaleLock.dict ⟨uid0, ioff0, es0⟩).lookup "uid" = uid0.map J.str := by
    rw [hdict, JObj.lookup_append, lookup_emit _ _ (by simp)]
    cases uid0 with
    | none =>
        cases ioff0 with
        | none =>
            show Option.or none _ = none
            rw [Option.none_or]
            exact JObj.lookup_none_of_keys _ _ (hnotk "uid" (by simp [ValueScaleLock.fieldNames]))
        | some b =>
            show Option.or none _ = none
            rw [Option.none_or]
            exact JObj.lookup_none_of_keys _ _ (hnotk "uid" (by simp [ValueScaleLock.fieldNames]))
    | some s => rfl
  have hli : (ValueScaleLock.dict ⟨uid0, ioff0, es0⟩).lookup "ignoreOffScreenValues" =
      ioff0.map J.bool := by
    rw [hdict, JObj.lookup_append, lookup_emit _ _ (by simp)]
    cases uid0 <;> cases ioff0 <;>
      first
      | rfl
      | (show Option.or none _ = none
         rw [Option.none_or]
         exact JObj.lookup_none_of_keys _ _
           (hnotk "ignoreOffScreenValues" (by simp [ValueScaleLock.fieldNames])))
  have hskips : vslEntriesOf (ValueScaleLock.dict ⟨uid0, ioff0, es0⟩) = .ok es0 := by
    rw [hdict, vslEntriesOf_skips _ _ (by simp [ValueScaleLock.fieldNames])]
    exact vslEntriesOf_enc es0 hkeys
  simp [ValueScaleLock.parse, hskips, hlu, hli, decOptStr_enc, decOptBool_enc]

theorem AxisSpecificLock.parse_axis (o : JObj) (t : AxisSpecificLock)
    (hp : AxisSpecificLock.parse o = .ok t) : t.axis = "x" ∨ t.axis = "y" := by
  simp only [AxisSpecificLock.parse, bind_ok_iff] at hp
  obtain ⟨a, ha, hrest⟩ := hp
  split at hrest
  · rename_i hcond
    simp only [bind_ok_iff, Except.ok.injEq] at hrest
    obtain ⟨lk, hlk, he⟩ := hrest
    subst he
    exact hcond
  · cases hrest

theorem AxisSpecificLock.rt_axisLock (o : JObj) (t : AxisSpecificLock)
    (hp : AxisSpecificLock.parse o = .ok t) : AxisSpecificLock.parse t.dict = .ok t :=
  AxisSpecificLock.dict_parse_axisLock t (AxisSpecificLock.parse_axis o t hp)

theorem AxisSpecificLocks.rt_axisLocks (o : JObj) (t : AxisSpecificLocks)
    (hp : AxisSpecificLocks.parse o = .ok t) : AxisSpecificLocks.parse t.dict = .ok t := by
  obtain ⟨x, y⟩ := t
  simp only [AxisSpecificLocks.parse, bind_ok_iff, Except.ok.injEq,
    AxisSpecificLocks.mk.injEq] at hp
  obtain ⟨x0, hx, y0, hy, hxe, hye⟩ := hp
  subst hxe
  subst hye
  have hxv : decOptModel AxisSpecificLock.parse (x0.map (fun a => J.obj a.dict)) "x" = .ok x0 := by
    rcases decOptModel_ok _ _ _ _ hx with hnone | ⟨oo, a, hl, hpa, hu⟩
    · subst hnone; rfl
    · subst hu
      exact decOptModel_enc _ _ _ _
        (fun c hc => by
          injection hc with hc2
          subst hc2
          exact AxisSpecificLock.rt_axisLock oo a hpa)
  have hyv : decOptModel AxisSpecificLock.parse (y0.map (fun a => J.obj a.dict)) "y" = .ok y0 := by
    rcases decOptModel_ok _ _ _ _ hy with hnone | ⟨oo, a, hl, hpa, hu⟩
    · subst hnone; rfl
    · subst hu
      exact decOptModel_enc _ _ _ _
        (fun c hc => by
          injection hc with hc2
          subst hc2
          exact AxisSpecificLock.rt_axisLock oo a hpa)
  simp [AxisSpecificLocks.parse, AxisSpecificLocks.dict, lookup_emit, flook, hxv, hyv]

theorem decLockVal_ok (v : J) (l : Lock) (h : decLockVal v = .ok l) :
    ∃ oo, v = .obj oo ∧ Lock.parse oo = .ok l := by
  cases v with
  | obj oo => exact ⟨oo, rfl, h⟩
  | null => cases h
  | bool _ => cases h
  | num _ => cases h
  | str _ => cases h
  | arr _ => cases h

theorem decValueScaleLockVal_ok (v : J) (l : ValueScaleLock)
    (h : decValueScaleLockVal v = .ok l) :
    ∃ oo, v = .obj oo ∧ ValueScaleLock.parse oo = .ok l := by
  cases v with
  | obj oo => exact ⟨oo, rfl, h⟩
  | null => cases h
  | bool _ => cases h
  | num _ => cases h
  | str _ => cases h
  | arr _ => cases h

theorem decLocationLockValue_ok (v : J) (x : LocationLockValue)
    (h : decLocationLockValue v = .ok x) :
    (∃ s, x = .ref s) ∨
    (∃ oo a, v = .obj oo ∧ AxisSpecificLocks.parse oo = .ok a ∧ x = .axes a) := by
  cases v with
  | str s =>
      cases h
      exact Or.inl ⟨s, rfl⟩
  | obj oo =>
      rw [show decLocationLockValue (.obj oo) = (AxisSpecificLocks.parse oo).map .axes
        from rfl, map_ok_iff] at h
      obtain ⟨a, ha, hx⟩ := h
      exact Or.inr ⟨oo, a, rfl, ha, hx.symm⟩
  | null => cases h
  | bool _ => cases h
  | num _ => cases h
  | arr _ => cases h

theorem lockPairs_enc (ld : List (String × Lock))
    (hsrc : ∀ p ∈ ld, ∃ v, decLockVal v = .ok p.2) :
    decPairsObj decLockVal (encPairs (fun l => J.obj l.dict) ld) = .ok ld := by
  apply decPairsObj_enc
  intro p hp
  obtain ⟨v, hv⟩ := hsrc p hp
  obtain ⟨oo, hoo, hparse⟩ := decLockVal_ok v p.2 hv
  exact Lock.rt_lock oo p.2 hparse

theorem vslPairs_enc (ld : List (String × ValueScaleLock))
    (hsrc : ∀ p ∈ ld, ∃ v, decValueScaleLockVal v = .ok p.2) :
    decPairsObj decValueScaleLockVal (encPairs (fun l => J.obj l.dict) ld) = .ok ld := by
  apply decPairsObj_enc
  intro p hp
  obtain ⟨v, hv⟩ := hsrc p hp
  obtain ⟨oo, hoo, hparse⟩ := decValueScaleLockVal_ok v p.2 hv
  exact ValueScaleLock.rt_vsl oo p.2 hparse

theorem locationPairs_enc (bu : List (String × LocationLockValue))
    (hsrc : ∀ p ∈ bu, ∃ v, decLocationLockValue v = .ok p.2) :
    decPairsObj decLocationLockValue (encPairs encLocationLockValue bu) = .ok bu := by
  apply decPairsObj_enc
  intro p hp
  obtain ⟨v, hv⟩ := hsrc p hp
  rcases decLocationLockValue_ok v p.2 hv with ⟨s, hs⟩ | ⟨oo, a, hoo, hparse, hx⟩
  · rw [hs]; rfl
  · rw [hx]
    show (AxisSpecificLocks.parse (AxisSpecificLocks.dict a)).map LocationLockValue.axes =
      .ok (.axes a)
    rw [AxisSpecificLocks.rt_axisLocks oo a hparse]
    rfl

theorem strPairs_enc (bu : List (String × String)) :
    decPairsObj decStrVal (encPairs J.str bu) = .ok bu := by
  apply decPairsObj_enc
  intro p _
  rfl

theorem LocationLocks.rt_locationLocks (o : JObj) (t : LocationLocks)
    (hp : LocationLocks.parse o = .ok t) : LocationLocks.parse t.dict = .ok t := by
  obtain ⟨bu, ld⟩ := t
  simp only [LocationLocks.parse, bind_ok_iff, Except.ok.injEq,
    LocationLocks.mk.injEq] at hp
  obtain ⟨bu0, hbu, ld0, hld, hbe, hle⟩ := hp
  subst hbe
  subst hle
  have h1 := locationPairs_enc bu0 (decDictD_sources _ _ _ _ hbu)
  have h2 := lockPairs_enc ld0 (decDictD_sources _ _ _ _ hld)
  simp [LocationLocks.parse, LocationLocks.dict, lookup_emit, flook, decDictD, h1, h2]

theorem ZoomLocks.rt_zoomLocks (o : JObj) (t : ZoomLocks)
    (hp : ZoomLocks.parse o = .ok t) : ZoomLocks.parse t.dict = .ok t := by
  obtain ⟨bu, ld⟩ := t
  simp only [ZoomLocks.parse] at hp
  split at hp
  · simp only [bind_ok_iff, Except.ok.injEq, ZoomLocks.mk.injEq] at hp
    obtain ⟨bu0, hbu, ld0, hld, hbe, hle⟩ := hp
    subst hbe
    subst hle
    have h1 := strPairs_enc bu0
    have h2 := lockPairs_enc ld0 (decDictD_sources _ _ _ _ hld)
    have hkeys : (ZoomLocks.dict ⟨bu0, ld0⟩).allKeysIn ZoomLocks.fieldNames = true := by
      apply JObj.allKeysIn_of
      intro k hk
      have := emit_keys _ k hk
      simpa [ZoomLocks.fieldNames] using this
    simp [ZoomLocks.parse, ZoomLocks.dict, hkeys, lookup_emit, flook, decDictD, h1, h2]
    simp [ZoomLocks.dict] at hkeys
    simp [hkeys]
  · cases hp

theorem ValueScaleLocks.rt_vsls (o : JObj) (t : ValueScaleLocks)
    (hp : ValueScaleLocks.parse o = .ok t) : ValueScaleLocks.parse t.dict = .ok t := by
  obtain ⟨bu, ld⟩ := t
  simp only [ValueScaleLocks.parse] at hp
  split at hp
  · simp only [bind_ok_iff, Except.ok.injEq, ValueScaleLocks.mk.injEq] at hp
    obtain ⟨bu0, hbu, ld0, hld, hbe, hle⟩ := hp
    subst hbe
    subst hle
    have h1 := strPairs_enc bu0
    have h2 := vslPairs_enc ld0 (decDictD_sources _ _ _ _ hld)
    have hkeys : (ValueScaleLocks.dict ⟨bu0, ld0⟩).allKeysIn ValueScaleLocks.fieldNames = true := by
      apply JObj.allKeysIn_of
      intro k hk
      have := emit_keys _ k hk
      simpa [ValueScaleLocks.fieldNames] using this
    simp [ValueScaleLocks.parse, ValueScaleLocks.dict, hkeys, lookup_emit, flook,
      decDictD, h1, h2]
    simp [ValueScaleLocks.dict] at hkeys
    simp [hkeys]
  · cases hp

/- Track variant round-trips and congruence. -/

theorem EnumTrack.dict_parse_enum (t : EnumTrack) (hmem : t.type ∈ EnumTrackType)
    (hc : t.clean = true) : EnumTrack.parse t.dict = .ok t := by
  obtain ⟨ty, uid, w, h, opts, tu, sv, dat, cip, fvu, x, y⟩ := t
  simp only [EnumTrack.clean, Bool.and_eq_true] at hc
  have hopts := strip_optObj opts hc.1
  have hdata : decOptModel Data.parse (dat.map (fun d => J.obj d.dict)) "data" = .ok dat :=
    decOptModel_enc_data dat "data" hc.2
  simp only at hmem
  simp [EnumTrack.parse, EnumTrack.dict, hopts, lookup_emit, flook, decStr,
    decOptStr_enc, decOptInt_enc, decOptObj_enc, decOptNum_enc, hdata, hmem]

theorem HeatmapTrack.dict_parse_heatmap (t : HeatmapTrack) (hc : t.clean = true) :
    HeatmapTrack.parse t.dict = .ok t := by
  obtain ⟨uid, w, h, opts, tu, sv, dat, pos, tr⟩ := t
  simp only [HeatmapTrack.clean, Bool.and_eq_true] at hc
  have hopts := strip_optObj opts hc.1.1
  have htr := strip_optArr tr hc.2
  have hdata : decOptModel Data.parse (dat.map (fun d => J.obj d.dict)) "data" = .ok dat :=
    decOptModel_enc_data dat "data" hc.1.2
  simp [HeatmapTrack.parse, HeatmapTrack.dict, hopts, htr, lookup_emit, flook, decLit,
    decOptStr_enc, decOptInt_enc, decOptObj_enc, decOptArr_enc, hdata]

theorem BaseTrack.dict_parse_base (t : BaseTrack)
    (hex : ∀ k ∈ t.extras.keys, k ∉ BaseTrack.fieldNames)
    (hc : t.clean = true) : BaseTrack.parse t.dict = .ok t := by
  obtain ⟨ty, uid, w, h, opts, ex⟩ := t
  simp only [BaseTrack.clean, Bool.and_eq_true] at hc
  simp only at hex
  have hexs : ex.strip = ex := JObj.strip_of_noNullsObj ex hc.2
  have hd : BaseTrack.dict ⟨ty, uid, w, h, opts, ex⟩ =
      (emit [("type", some (.str ty)), ("uid", uid.map J.str), ("width", w.map jint),
             ("height", h.map jint), ("options", opts.map J.obj)]).append ex := by
    simp only [BaseTrack.dict, hexs]
    rw [strip_optObj opts hc.1]
  have hnotex : ∀ k ∈ BaseTrack.fieldNames, ex.lookup k = none := by
    intro k hk
    apply JObj.lookup_none_of_keys
    intro hm
    exact hex k hm hk
  have hlt : (BaseTrack.dict ⟨ty, uid, w, h, opts, ex⟩).lookup "type" = some (.str ty) := by
    rw [hd, JObj.lookup_append, lookup_emit _ _ (by simp)]
    rfl
  have hlu : (BaseTrack.dict ⟨ty, uid, w, h, opts, ex⟩).lookup "uid" = uid.map J.str := by
    rw [hd, JObj.lookup_append, lookup_emit _ _ (by simp)]
    cases uid with
    | some s => rfl
    | none =>
        show Option.or none _ = none
        rw [Option.none_or]
        exact hnotex "uid" (by simp [BaseTrack.fieldNames])
  have hlw : (BaseTrack.dict ⟨ty, uid, w, h, opts, ex⟩).lookup "width" = w.map jint := by
    rw [hd, JObj.lookup_append, lookup_emit _ _ (by simp)]
    cases w with
    | some i => rfl
    | none =>
        show Option.or none _ = none
        rw [Option.none_or]
        exact hnotex "width" (by simp [BaseTrack.fieldNames])
  have hlh : (BaseTrack.dict ⟨ty, uid, w, h, opts, ex⟩).lookup "height" = h.map jint := by
    rw [hd, JObj.lookup_append, lookup_emit _ _ (by simp)]
    cases h with
    | some i => rfl
    | none =>
        show Option.or none _ = none
        rw [Option.none_or]
        exact hnotex "height" (by simp [BaseTrack.fieldNames])
  have hlo : (BaseTrack.dict ⟨ty, uid, w, h, opts, ex⟩).lookup "options" = opts.map J.obj := by
    rw [hd, JObj.lookup_append, lookup_emit _ _ (by simp)]
    cases opts with
    | some o => rfl
    | none =>
        show Option.or none _ = none
        rw [Option.none_or]
        exact hnotex "options" (by simp [BaseTrack.fieldNames])
  have hext : (BaseTrack.dict ⟨ty, uid, w, h, opts, ex⟩).extras BaseTrack.fieldNames = ex := by
    rw [hd, JObj.extras_append,
      JObj.extras_all_in (emit _) _ (fun k hk => by
        have := emit_keys _ k hk
        simpa [BaseTrack.fieldNames] using this),
      JObj.extras_none_in ex _ hex]
    rfl
  simp [BaseTrack.parse, hlt, hlu, hlw, hlh, hlo, hext, decStr, decOptStr_enc,
    decOptInt_enc, decOptObj_enc]

theorem decStr_ok_inv (l : Option J) (k s : String) (h : decStr l k = .ok s) :
    l = some (.str s) := by
  rcases l with _ | j
  · cases h
  · cases j with
    | str s2 => cases h; rfl
    | null => cases h
    | bool _ => cases h
    | num _ => cases h
    | arr _ => cases h
    | obj _ => cases h

theorem EnumTrack.parse_congr_enum (o₁ o₂ : JObj)
    (ht : o₁.lookup "type" = o₂.lookup "type")
    (hu : decOptStr (o₁.lookup "uid") "uid" = decOptStr (o₂.lookup "uid") "uid")
    (hw : decOptInt (o₁.lookup "width") "width" = decOptInt (o₂.lookup "width") "width")
    (hh : decOptInt (o₁.lookup "height") "height" = decOptInt (o₂.lookup "height") "height")
    (ho : decOptObj (o₁.lookup "options") "options" = decOptObj (o₂.lookup "options") "options")
    (hrest : ∀ k ∈ ["tilesetUid", "server", "data", "chromInfoPath", "fromViewUid", "x", "y"],
      o₁.lookup k = o₂.lookup k) :
    EnumTrack.parse o₁ = EnumTrack.parse o₂ := by
  unfold EnumTrack.parse
  rw [ht, hu, hw, hh, ho, hrest "tilesetUid" (by simp), hrest "server" (by simp),
    hrest "data" (by simp), hrest "chromInfoPath" (by simp),
    hrest "fromViewUid" (by simp), hrest "x" (by simp), hrest "y" (by simp)]

theorem HeatmapTrack.parse_congr_heatmap (o₁ o₂ : JObj)
    (ht : o₁.lookup "type" = o₂.lookup "type")
    (hu : decOptStr (o₁.lookup "uid") "uid" = decOptStr (o₂.lookup "uid") "uid")
    (hw : decOptInt (o₁.lookup "width") "width" = decOptInt (o₂.lookup "width") "width")
    (hh : decOptInt (o₁.lookup "height") "height" = decOptInt (o₂.lookup "height") "height")
    (ho : decOptObj (o₁.lookup "options") "options" = decOptObj (o₂.lookup "options") "options")
    (hrest : ∀ k ∈ ["tilesetUid", "server", "data", "position", "transforms"],
      o₁.lookup k = o₂.lookup k) :
    HeatmapTrack.parse o₁ = HeatmapTrack.parse o₂ := by
  unfold HeatmapTrack.parse
  rw [ht, hu, hw, hh, ho, hrest "tilesetUid" (by simp),
    hrest "server" (by simp), hrest "data" (by simp), hrest "position" (by simp),
    hrest "transforms" (by simp)]

theorem IndependentViewportProjectionTrack.parse_congr_ivp (o₁ o₂ : JObj)
    (ht : o₁.lookup "type" = o₂.lookup "type")
    (hu : decOptStr (o₁.lookup "uid") "uid" = decOptStr (o₂.lookup "uid") "uid")
    (hw : decOptInt (o₁.lookup "width") "width" = decOptInt (o₂.lookup "width") "width")
    (hh : decOptInt (o₁.lookup "height") "height" = decOptInt (o₂.lookup "height") "height")
    (ho : decOptObj (o₁.lookup "options") "options" = decOptObj (o₂.lookup "options") "options")
    (hrest : ∀ k ∈ ["fromViewUid", "projectionXDomain", "projectionYDomain", "transforms",
      "x", "y"], o₁.lookup k = o₂.lookup k) :
    IndependentViewportProjectionTrack.parse o₁ =
      IndependentViewportProjectionTrack.parse o₂ := by
  unfold IndependentViewportProjectionTrack.parse
  rw [ht, hu, hw, hh, ho, hrest "fromViewUid" (by simp),
    hrest "projectionXDomain" (by simp), hrest "projectionYDomain" (by simp),
    hrest "transforms" (by simp), hrest "x" (by simp), hrest "y" (by simp)]

theorem tryCombined_congr (o₁ o₂ : JObj)
    (ht : o₁.lookup "type" = o₂.lookup "type")
    (hc : o₁.lookup "contents" = o₂.lookup "contents")
    (hpos : o₁.lookup "position" = o₂.lookup "position") :
    tryCombined o₁ = tryCombined o₂ := by
  unfold tryCombined
  rw [ht, hc, hpos]

theorem EnumTrack.parse_type_mem (o : JObj) (e : EnumTrack)
    (hp : EnumTrack.parse o = .ok e) : e.type ∈ EnumTrackType := by
  simp only [EnumTrack.parse, bind_ok_iff] at hp
  obtain ⟨ty, hty, hrest⟩ := hp
  split at hrest
  · rename_i hcond
    simp only [bind_ok_iff, Except.ok.injEq] at hrest
    obtain ⟨u, _, w, _, h, _, o2, _, tu, _, sv, _, d, _, cip, _, fvu, _, x, _, y, _, he⟩ := hrest
    subst he
    exact hcond
  · cases hrest

theorem combined_not_enumtype : "combined" ∉ EnumTrackType := by decide

theorem heatmap_not_enumtype : "heatmap" ∉ EnumTrackType := by decide

theorem EnumTrack.parse_combinedDict (ts : TrackList) (pos : Option String) :
    EnumTrack.parse (CombinedTrack.dict (.mk ts pos)) =
      .error "type: not a known enum track type" := by
  simp [EnumTrack.parse, CombinedTrack.dict, lookup_emit, flook, decStr,
    combined_not_enumtype]

theorem EnumTrack.parse_heatmapDict (t : HeatmapTrack) :
    EnumTrack.parse t.dict = .error "type: not a known enum track type" := by
  simp [EnumTrack.parse, HeatmapTrack.dict, lookup_emit, flook, decStr,
    heatmap_not_enumtype]

theorem tryCombined_heatmapDict (t : HeatmapTrack) :
    tryCombined t.dict = .error "type: unexpected literal" := by
  simp [tryCombined, HeatmapTrack.dict, lookup_emit, flook, decLit]

theorem BaseTrack.dict_lookup (ty : String) (uid : Option String) (w h : Option Int)
    (opts : Option JObj) (ex : JObj)
    (hex : ∀ k ∈ ex.keys, k ∉ BaseTrack.fieldNames)
    (hopn : optObjNoNulls opts = true) (hexn : ex.noNulls = true) :
    (BaseTrack.dict ⟨ty, uid, w, h, opts, ex⟩).lookup "type" = some (.str ty) ∧
    (BaseTrack.dict ⟨ty, uid, w, h, opts, ex⟩).lookup "uid" = uid.map J.str ∧
    (BaseTrack.dict ⟨ty, uid, w, h, opts, ex⟩).lookup "width" = w.map jint ∧
    (BaseTrack.dict ⟨ty, uid, w, h, opts, ex⟩).lookup "height" = h.map jint ∧
    (BaseTrack.dict ⟨ty, uid, w, h, opts, ex⟩).lookup "options" = opts.map J.obj ∧
    (∀ k, k ∉ BaseTrack.fieldNames →
      (BaseTrack.dict ⟨ty, uid, w, h, opts, ex⟩).lookup k = ex.lookup k) := by
  have hexs : ex.strip = ex := JObj.strip_of_noNullsObj ex hexn
  have hd : BaseTrack.dict ⟨ty, uid, w, h, opts, ex⟩ =
      (emit [("type", some (.str ty)), ("uid", uid.map J.str), ("width", w.map jint),
             ("height", h.map jint), ("options", opts.map J.obj)]).append ex := by
    simp only [BaseTrack.dict, hexs]
    rw [strip_optObj opts hopn]
  have hnotex : ∀ k ∈ BaseTrack.fieldNames, ex.lookup k = none := by
    intro k hk
    apply JObj.lookup_none_of_keys
    intro hm
    exact hex k hm hk
  refine ⟨?_, ?_, ?_, ?_, ?_, ?_⟩
  · rw [hd, JObj.lookup_append, lookup_emit _ _ (by simp)]
    rfl
  · rw [hd, JObj.lookup_append, lookup_emit _ _ (by simp)]
    cases uid with
    | some s => rfl
    | none =>
        show Option.or none _ = none
        rw [Option.none_or]
        exact hnotex "uid" (by simp [BaseTrack.fieldNames])
  · rw [hd, JObj.lookup_append, lookup_emit _ _ (by simp)]
    cases w with
    | some i => rfl
    | none =>
        show Option.or none _ = none
        rw [Option.none_or]
        exact hnotex "width" (by simp [BaseTrack.fieldNames])
  · rw [hd, JObj.lookup_append, lookup_emit _ _ (by simp)]
    cases h with
    | some i => rfl
    | none =>
        show Option.or none _ = none
        rw [Option.none_or]
        exact hnotex "height" (by simp [BaseTrack.fieldNames])
  · rw [hd, JObj.lookup_append, lookup_emit _ _ (by simp)]
    cases opts with
    | some o => rfl
    | none =>
        show Option.or none _ = none
        rw [Option.none_or]
        exact hnotex "options" (by simp [BaseTrack.fieldNames])
  · intro k hk
    rw [hd, JObj.lookup_append, lookup_emit_notmem _ _ (by
      intro hm
      simp only [List.map_cons, List.map_nil] at hm
      apply hk
      simpa [BaseTrack.fieldNames] using hm), Option.none_or]

theorem parseTrackArr_rt_of (s : Nat)
    (ih : ∀ (j : J) (t : Track), j.jsize ≤ s → parseTrack j = .ok t →
      Track.clean t = true → parseTrack (.obj t.dict) = .ok t) :
    ∀ (js : JArr) (ts : TrackList), js.jasize ≤ s → parseTrackArr js = .ok ts →
      TrackList.clean ts = true → parseTrackArr ts.dictArr = .ok ts
  | .nil => by
      intro ts hsz hp hc
      rw [show parseTrackArr .nil = .ok .nil from rfl] at hp
      injection hp with hp2
      subst hp2
      rfl
  | .cons j r => by
      intro ts hsz hp hc
      rw [show parseTrackArr (.cons j r) =
        (do
          let t ← parseTrack j
          let l ← parseTrackArr r
          .ok (.cons t l)) from rfl] at hp
      simp only [bind_ok_iff, Except.ok.injEq] at hp
      obtain ⟨t, ht, l, hl, he⟩ := hp
      subst he
      simp only [TrackList.clean, Bool.and_eq_true] at hc
      have hjsz : j.jsize ≤ s := by
        have h1 := jaMem_jasize (.cons j r) j (Or.inl rfl)
        omega
      have hrsz : r.jasize ≤ s := by
        have := J.jsize_pos j
        simp only [JArr.jasize] at hsz
        omega
      have h1 := ih j t hjsz ht hc.1
      have h2 := parseTrackArr_rt_of s ih r l hrsz hl hc.2
      show parseTrackArr (.cons (.obj t.dict) (TrackList.dictArr l)) = _
      rw [show parseTrackArr (.cons (.obj t.dict) (TrackList.dictArr l)) =
        (do
          let t2 ← parseTrack (.obj t.dict)
          let l2 ← parseTrackArr (TrackList.dictArr l)
          .ok (.cons t2 l2)) from rfl, h1, h2]
      rfl

theorem parseTrack_rt_aux : ∀ (s : Nat) (j : J) (t : Track),
    j.jsize ≤ s → parseTrack j = .ok t → Track.clean t = true →
    parseTrack (.obj t.dict) = .ok t := by
  intro s
  induction s with
  | zero =>
      intro j t h1 _ _
      have := J.jsize_pos j
      omega
  | succ s ih =>
      intro j t hs hp hc
      cases j with
      | null =>
          rw [show parseTrack .null = .error "track: dict expected" from rfl] at hp
          cases hp
      | bool b =>
          rw [show parseTrack (.bool b) = .error "track: dict expected" from rfl] at hp
          cases hp
      | num q =>
          rw [show parseTrack (.num q) = .error "track: dict expected" from rfl] at hp
          cases hp
      | str s2 =>
          rw [show parseTrack (.str s2) = .error "track: dict expected" from rfl] at hp
          cases hp
      | arr xs =>
          rw [show parseTrack (.arr xs) = .error "track: dict expected" from rfl] at hp
          cases hp
      | obj kvs =>
          have hsz : kvs.josize + 1 ≤ s + 1 := by
            have hq : (J.obj kvs).jsize = kvs.josize + 1 := rfl
            omega
          rw [parseTrack_obj] at hp
          unfold trackChain at hp
          split at hp
          · -- EnumTrack succeeded
            rename_i e hE
            injection hp with hp2
            subst hp2
            simp only [Track.clean] at hc
            rw [show Track.dict (.enum e) = e.dict from rfl, parseTrack_obj]
            unfold trackChain
            rw [EnumTrack.dict_parse_enum e (EnumTrack.parse_type_mem kvs e hE) hc]
          · -- EnumTrack failed
            rename_i eE hE
            split at hp
            · -- CombinedTrack succeeded
              rename_i c hC
              injection hp with hp2
              subst hp2
              obtain ⟨ts, pos⟩ := c
              simp only [Track.clean, CombinedTrack.clean] at hc
              unfold tryCombined at hC
              simp only [bind_ok_iff] at hC
              obtain ⟨u0, hlit, hmatch⟩ := hC
              split at hmatch
              · rename_i js hlkc
                simp only [bind_ok_iff, Except.ok.injEq, CombinedTrack.mk.injEq] at hmatch
                obtain ⟨ts0, hts, pos0, hpos, hte, hpe⟩ := hmatch
                rw [hte] at hts
                rw [hpe] at hpos
                have hjs : js.jasize + 1 ≤ kvs.josize := by
                  have := JObj.lookup_jsize kvs "contents" (.arr js) hlkc
                  simpa [J.jsize] using this
                have harr : parseTrackArr (TrackList.dictArr ts) = .ok ts :=
                  parseTrackArr_rt_of s ih js ts (by omega) hts hc
                have hCd : tryCombined (CombinedTrack.dict (.mk ts pos)) =
                    .ok (.mk ts pos) := by
                  simp [tryCombined, CombinedTrack.dict, lookup_emit, flook, decLit,
                    harr, decOptStr_enc]
                rw [show Track.dict (.combined (.mk ts pos)) =
                  CombinedTrack.dict (.mk ts pos) from rfl, parseTrack_obj]
                unfold trackChain
                rw [EnumTrack.parse_combinedDict ts pos, hCd]
              · cases hmatch
              · cases hmatch
            · -- CombinedTrack failed
              rename_i eC hC
              split at hp
              · -- HeatmapTrack succeeded
                rename_i h hH
                injection hp with hp2
                subst hp2
                simp only [Track.clean] at hc
                rw [show Track.dict (.heatmap h) = h.dict from rfl, parseTrack_obj]
                unfold trackChain
                rw [EnumTrack.parse_heatmapDict h, tryCombined_heatmapDict h,
                  HeatmapTrack.dict_parse_heatmap h hc]
              · -- HeatmapTrack failed
                rename_i eH hH
                split at hp
                · -- IndependentViewportProjectionTrack succeeded: excluded by clean
                  rename_i i hI
                  injection hp with hp2
                  subst hp2
                  simp only [Track.clean] at hc
                  cases hc
                · -- BaseTrack is the remaining case
                  rename_i eI hI
                  rw [map_ok_iff] at hp
                  obtain ⟨b, hB, hbe⟩ := hp
                  subst hbe
                  simp only [Track.clean] at hc
                  -- invert the BaseTrack parse
                  simp only [BaseTrack.parse, bind_ok_iff, Except.ok.injEq] at hB
                  obtain ⟨ty, hty, uid, huid, w, hw, h2, hh2, op, hop, he⟩ := hB
                  subst he
                  simp only [BaseTrack.clean, Bool.and_eq_true] at hc
                  have hex := JObj.extras_keys kvs BaseTrack.fieldNames
                  have hdl := BaseTrack.dict_lookup ty uid w h2 op
                    (kvs.extras BaseTrack.fieldNames) hex hc.1 hc.2
                  obtain ⟨hdt, hdu, hdw, hdh, hdo, hdrest⟩ := hdl
                  have hktype := decStr_ok_inv (kvs.lookup "type") "type" ty hty
                  set B : BaseTrack := ⟨ty, uid, w, h2, op, kvs.extras BaseTrack.fieldNames⟩
                    with hBdef
                  have hlk : ∀ k, k ∉ BaseTrack.fieldNames →
                      (BaseTrack.dict B).lookup k = kvs.lookup k := by
                    intro k hk
                    rw [hdrest k hk, JObj.lookup_extras kvs BaseTrack.fieldNames k hk]
                  have hE2 : EnumTrack.parse (BaseTrack.dict B) = .error eE := by
                    rw [EnumTrack.parse_congr_enum (BaseTrack.dict B) kvs
                      (by rw [hdt, hktype])
                      (by rw [hdu, huid, decOptStr_enc])
                      (by rw [hdw, hw, decOptInt_enc])
                      (by rw [hdh, hh2, decOptInt_enc])
                      (by rw [hdo, hop, decOptObj_enc])
                      (fun k hk => hlk k (by fin_cases hk <;> decide))]
                    exact hE
                  have hC2 : tryCombined (BaseTrack.dict B) = .error eC := by
                    rw [tryCombined_congr (BaseTrack.dict B) kvs
                      (by rw [hdt, hktype])
                      (hlk "contents" (by simp [BaseTrack.fieldNames]))
                      (hlk "position" (by simp [BaseTrack.fieldNames]))]
                    exact hC
                  have hH2 : HeatmapTrack.parse (BaseTrack.dict B) = .error eH := by
                    rw [HeatmapTrack.parse_congr_heatmap (BaseTrack.dict B) kvs
                      (by rw [hdt, hktype])
                      (by rw [hdu, huid, decOptStr_enc])
                      (by rw [hdw, hw, decOptInt_enc])
                      (by rw [hdh, hh2, decOptInt_enc])
                      (by rw [hdo, hop, decOptObj_enc])
                      (fun k hk => hlk k (by fin_cases hk <;> decide))]
                    exact hH
                  have hI2 : IndependentViewportProjectionTrack.parse (BaseTrack.dict B) =
                      .error eI := by
                    rw [IndependentViewportProjectionTrack.parse_congr_ivp (BaseTrack.dict B) kvs
                      (by rw [hdt, hktype])
                      (by rw [hdu, huid, decOptStr_enc])
                      (by rw [hdw, hw, decOptInt_enc])
                      (by rw [hdh, hh2, decOptInt_enc])
                      (by rw [hdo, hop, decOptObj_enc])
                      (fun k hk => hlk k (by fin_cases hk <;> decide))]
                    exact hI
                  have hB2 : BaseTrack.parse (BaseTrack.dict B) = .ok B :=
                    BaseTrack.dict_parse_base B hex (by
                      simp only [BaseTrack.clean, Bool.and_eq_true]
                      exact hc)
                  rw [show Track.dict (.base B) = BaseTrack.dict B from rfl, parseTrack_obj]
                  unfold trackChain
                  rw [hE2, hC2, hH2, hI2, hB2]
                  rfl

theorem parseTrack_rt (j : J) (t : Track) (hp : parseTrack j = .ok t)
    (hc : Track.clean t = true) : parseTrack (.obj t.dict) = .ok t :=
  parseTrack_rt_aux j.jsize j t le_rfl hp hc

theorem parseTrackArr_rt (js : JArr) (ts : TrackList) (hp : parseTrackArr js = .ok ts)
    (hc : TrackList.clean ts = true) : parseTrackArr ts.dictArr = .ok ts :=
  parseTrackArr_rt_of js.jasize
    (fun j2 t2 _ hp2 hc2 => parseTrack_rt j2 t2 hp2 hc2) js ts le_rfl hp hc

/- Tracks / View / Viewconf round-trips. -/

theorem decOptTrackList_ok (l : Option J) (k : String) (u : Option TrackList)
    (h : decOptTrackList l k = .ok u) :
    u = none ∨ ∃ js ts, l = some (.arr js) ∧ parseTrackArr js = .ok ts ∧ u = some ts := by
  rcases l with _ | j
  · cases h; exact Or.inl rfl
  · cases j with
    | null => cases h; exact Or.inl rfl
    | arr js =>
        rw [show decOptTrackList (some (.arr js)) k = (parseTrackArr js).map some from rfl,
          map_ok_iff] at h
        obtain ⟨ts, hts, hu⟩ := h
        exact Or.inr ⟨js, ts, rfl, hts, hu.symm⟩
    | bool _ => cases h
    | num _ => cases h
    | str _ => cases h
    | obj _ => cases h

theorem decOptTrackList_rt (l : Option J) (k k2 : String) (u : Option TrackList)
    (h : decOptTrackList l k = .ok u) (hc : optTrackListClean u = true) :
    decOptTrackList (u.map (fun ts => J.arr ts.dictArr)) k2 = .ok u := by
  rcases decOptTrackList_ok l k u h with hn | ⟨js, ts, hl, hp, hu⟩
  · subst hn; rfl
  · subst hu
    show (parseTrackArr (TrackList.dictArr ts)).map some = .ok (some ts)
    rw [parseTrackArr_rt js ts hp (by simpa [optTrackListClean] using hc)]
    rfl

theorem Tracks.rt_tracks (o : JObj) (t : Tracks) (hp : Tracks.parse o = .ok t)
    (hc : t.clean = true) : Tracks.parse t.dict = .ok t := by
  obtain ⟨sl, sr, st, sb, sc, sw, sg⟩ := t
  simp only [Tracks.parse, bind_ok_iff, Except.ok.injEq, Tracks.mk.injEq] at hp
  obtain ⟨l1, h1, l2, h2, l3, h3, l4, h4, l5, h5, l6, h6, l7, h7,
    he1, he2, he3, he4, he5, he6, he7⟩ := hp
  subst he1; subst he2; subst he3; subst he4; subst he5; subst he6; subst he7
  simp only [Tracks.clean, Bool.and_eq_true] at hc
  have r1 := decOptTrackList_rt _ _ "left" _ h1 hc.1.1.1.1.1.1
  have r2 := decOptTrackList_rt _ _ "right" _ h2 hc.1.1.1.1.1.2
  have r3 := decOptTrackList_rt _ _ "top" _ h3 hc.1.1.1.1.2
  have r4 := decOptTrackList_rt _ _ "bottom" _ h4 hc.1.1.1.2
  have r5 := decOptTrackList_rt _ _ "center" _ h5 hc.1.1.2
  have r6 := decOptTrackList_rt _ _ "whole" _ h6 hc.1.2
  have r7 := decOptTrackList_rt _ _ "gallery" _ h7 hc.2
  simp [Tracks.parse, Tracks.dict, lookup_emit, flook, r1, r2, r3, r4, r5, r6, r7]

theorem View.rt_view (o : JObj) (v : View) (hp : View.parse o = .ok v)
    (hc : View.clean v = true) : View.parse v.dict = .ok v := by
  obtain ⟨lay, trk, uid, acs, cip, gpsb, gpsbv, ixd, iyd, ovl, selv, zf, zl⟩ := v
  simp only [View.parse] at hp
  split at hp
  · simp only [bind_ok_iff, Except.ok.injEq, View.mk.injEq] at hp
    obtain ⟨lay0, hlay, trk0, htrk, uid0, huid, acs0, hacs, cip0, hcip, g0, hg, gv0, hgv,
      x0, hx, y0, hy, ov0, hov, sv0, hsv, zf0, hzf, zl0, hzl, he⟩ := hp
    obtain ⟨e1, e2, e3, e4, e5, e6, e7, e8, e9, e10, e11, e12, e13⟩ := he
    subst e1; subst e2; subst e3; subst e4; subst e5; subst e6; subst e7
    subst e8; subst e9; subst e10; subst e11; subst e12; subst e13
    simp only [View.clean] at hc
    obtain ⟨olay, hol, hpl⟩ := decModel_ok _ _ _ _ hlay
    obtain ⟨otrk, hot, hpt⟩ := decModel_ok _ _ _ _ htrk
    have rlay : decModel Layout.parse (some (.obj lay0.dict)) "layout" = .ok lay0 :=
      decModel_enc _ _ _ _ (Layout.dict_parse_layout lay0)
    have rtrk : decModel Tracks.parse (some (.obj trk0.dict)) "tracks" = .ok trk0 :=
      decModel_enc _ _ _ _ (Tracks.rt_tracks otrk trk0 hpt hc)
    have rg : decOptModel GenomePositionSearchBox.parse
        (g0.map (fun x => J.obj x.dict)) "genomePositionSearchBox" = .ok g0 :=
      decOptModel_enc _ _ _ _ (fun a _ => GenomePositionSearchBox.dict_parse_gpsb a)
    have rov : decOptListOf decOverlayVal
        (ov0.map (fun l => J.arr (JArr.ofList (l.map (fun ovw => J.obj ovw.dict)))))
        "overlays" = .ok ov0 :=
      decOptListOf_enc decOverlayVal (fun ovw => J.obj ovw.dict) ov0 "overlays"
        (fun l a _ _ => Overlay.dict_parse_overlay a)
    have hkeys : (View.dict ⟨lay0, trk0, uid0, acs0, cip0, g0, gv0, x0, y0, ov0, sv0,
        zf0, zl0⟩).allKeysIn View.fieldNames = true := by
      apply JObj.allKeysIn_of
      intro k hk
      have := emit_keys _ k hk
      simpa [View.fieldNames] using this
    simp [View.parse, View.dict, hkeys, lookup_emit, flook, rlay, rtrk, rg, rov,
      decOptStr_enc, decOptBool_enc, decOptDomain_enc, decZoomLimits_enc]
    simp [View.dict] at hkeys
    simp [hkeys]
  · cases hp

theorem decViewVal_ok (vj : J) (v : View) (h : decViewVal vj = .ok v) :
    ∃ o, vj = .obj o ∧ View.parse o = .ok v := by
  cases vj with
  | obj o => exact ⟨o, rfl, h⟩
  | null => cases h
  | bool _ => cases h
  | num _ => cases h
  | str _ => cases h
  | arr _ => cases h

theorem decViews_rt (l : Option J) (k k2 : String) (u : Option (List View))
    (h : decViews l k = .ok u) (hc : viewsClean u = true) :
    decViews (u.map (fun vs => J.arr (JArr.ofList (vs.map (fun v => J.obj v.dict))))) k2 =
      .ok u := by
  rcases l with _ | j
  · cases h; rfl
  · cases j with
    | null => cases h; rfl
    | arr js =>
        simp only [decViews, bind_ok_iff] at h
        obtain ⟨vs, hvs, hres⟩ := h
        split at hres
        · rename_i hlen
          injection hres with hres2
          subst hres2
          simp only [viewsClean] at hc
          have hsrc := decListArr_sources decViewVal js vs hvs
          have henc : decListArr decViewVal
              (JArr.ofList (vs.map (fun v => J.obj v.dict))) = .ok vs := by
            apply decListArr_enc
            intro v hv
            obtain ⟨vj, hvj⟩ := hsrc v hv
            obtain ⟨ov, hov, hpv⟩ := decViewVal_ok vj v hvj
            exact View.rt_view ov v hpv (by
              have := List.all_eq_true.mp hc v hv
              simpa using this)
          show decViews (some (.arr (JArr.ofList (vs.map (fun v => J.obj v.dict))))) k2 =
            .ok (some vs)
          simp only [decViews, henc, eok_bind]
          rw [if_pos hlen]
        · cases hres
    | bool _ => cases h
    | num _ => cases h
    | str _ => cases h
    | obj _ => cases h

theorem Viewconf.rt_viewconf (o : JObj) (m : Viewconf) (hp : Viewconf.parseObj o = .ok m)
    (hc : Viewconf.clean m = true) : Viewconf.parseObj m.dict = .ok m := by
  obtain ⟨ed, ved, ted, zf, cl, evu, tss, vws, zlk, llk, vslk, cip⟩ := m
  simp only [Viewconf.parseObj] at hp
  split at hp
  · simp only [bind_ok_iff, Except.ok.injEq, Viewconf.mk.injEq] at hp
    obtain ⟨a1, h1, a2, h2, a3, h3, a4, h4, a5, h5, a6, h6, a7, h7, a8, h8, a9, h9,
      a10, h10, a11, h11, a12, h12, he⟩ := hp
    obtain ⟨e1, e2, e3, e4, e5, e6, e7, e8, e9, e10, e11, e12⟩ := he
    subst e1; subst e2; subst e3; subst e4; subst e5; subst e6
    subst e7; subst e8; subst e9; subst e10; subst e11; subst e12
    simp only [Viewconf.clean, Bool.and_eq_true] at hc
    obtain ⟨b1, hb1⟩ := Option.isSome_iff_exists.mp hc.1.1.1
    obtain ⟨b2, hb2⟩ := Option.isSome_iff_exists.mp hc.1.1.2
    obtain ⟨b3, hb3⟩ := Option.isSome_iff_exists.mp hc.1.2
    subst hb1; subst hb2; subst hb3
    have rvws := decViews_rt _ _ "views" _ h8 hc.2
    have rzlk : decOptModel ZoomLocks.parse (a9.map (fun z => J.obj z.dict)) "zoomLocks" =
        .ok a9 := by
      rcases decOptModel_ok _ _ _ _ h9 with hn | ⟨oo, a, hl, hpa, hu⟩
      · subst hn; rfl
      · subst hu
        exact decOptModel_enc _ _ _ _ (fun c hcc => by
          injection hcc with hc2
          subst hc2
          exact ZoomLocks.rt_zoomLocks oo a hpa)
    have rllk : decOptModel LocationLocks.parse (a10.map (fun z => J.obj z.dict))
        "locationLocks" = .ok a10 := by
      rcases decOptModel_ok _ _ _ _ h10 with hn | ⟨oo, a, hl, hpa, hu⟩
      · subst hn; rfl
      · subst hu
        exact decOptModel_enc _ _ _ _ (fun c hcc => by
          injection hcc with hc2
          subst hc2
          exact LocationLocks.rt_locationLocks oo a hpa)
    have rvslk : decOptModel ValueScaleLocks.parse (a11.map (fun z => J.obj z.dict))
        "valueScaleLocks" = .ok a11 := by
      rcases decOptModel_ok _ _ _ _ h11 with hn | ⟨oo, a, hl, hpa, hu⟩
      · subst hn; rfl
      · subst hu
        exact decOptModel_enc _ _ _ _ (fun c hcc => by
          injection hcc with hc2
          subst hc2
          exact ValueScaleLocks.rt_vsls oo a hpa)
    have hkeys : (Viewconf.dict ⟨some b1, some b2, some b3, a4, a5, a6, a7, a8, a9,
        a10, a11, a12⟩).allKeysIn Viewconf.fieldNames = true := by
      apply JObj.allKeysIn_of
      intro k hk
      have := emit_keys _ k hk
      simpa [Viewconf.fieldNames] using this
    simp [Viewconf.parseObj, Viewconf.dict, hkeys, lookup_emit, flook, rvws, rzlk, rllk,
      rvslk, decBoolDefTrue_enc, decOptBool_enc, decOptStr_enc, decOptStrList_enc]
    simp [Viewconf.dict] at hkeys
    simp [hkeys]
  · cases hp

/-- The full round-trip: any parsed viewconf whose model is clean re-parses from
    its own serialisation to the same model. -/
theorem Viewconf.parse_rt (j : J) (m : Viewconf) (hp : Viewconf.parse j = .ok m)
    (hc : Viewconf.clean m = true) : Viewconf.parse (.obj m.dict) = .ok m := by
  cases j with
  | obj o => exact Viewconf.rt_viewconf o m hp hc
  | null => cases hp
  | bool _ => cases hp
  | num _ => cases hp
  | str _ => cases hp
  | arr _ => cases hp

/- Strictness (Extra.forbid) failure lemmas. -/

theorem View.parse_extra_key (o : JObj) (k : String) (hk : k ∈ o.keys)
    (hnd : k ∉ View.fieldNames) :
    View.parse o = .error "View: extra fields not permitted" := by
  have hf := JObj.allKeysIn_false o View.fieldNames k hk hnd
  simp [View.parse, hf]

theorem Viewconf.parseObj_extra_key (o : JObj) (k : String) (hk : k ∈ o.keys)
    (hnd : k ∉ Viewconf.fieldNames) :
    Viewconf.parseObj o = .error "Viewconf: extra fields not permitted" := by
  have hf := JObj.allKeysIn_false o Viewconf.fieldNames k hk hnd
  simp [Viewconf.parseObj, hf]

/- Track union resolution order. -/

theorem trackChain_enum (kvs : JObj) (e : EnumTrack) (hE : EnumTrack.parse kvs = .ok e) :
    parseTrack (.obj kvs) = .ok (.enum e) := by
  rw [parseTrack_obj]
  unfold trackChain
  rw [hE]

theorem trackChain_combined (kvs : JObj) (c : CombinedTrack)
    (hE : isErr (EnumTrack.parse kvs) = true) (hC : tryCombined kvs = .ok c) :
    parseTrack (.obj kvs) = .ok (.combined c) := by
  rw [parseTrack_obj]
  unfold trackChain
  cases hE2 : EnumTrack.parse kvs with
  | ok e => rw [hE2] at hE; cases hE
  | error eE => rw [hC]

theorem trackChain_heatmap (kvs : JObj) (h : HeatmapTrack)
    (hE : isErr (EnumTrack.parse kvs) = true) (hC : isErr (tryCombined kvs) = true)
    (hH : HeatmapTrack.parse kvs = .ok h) :
    parseTrack (.obj kvs) = .ok (.heatmap h) := by
  rw [parseTrack_obj]
  unfold trackChain
  cases hE2 : EnumTrack.parse kvs with
  | ok e => rw [hE2] at hE; cases hE
  | error eE =>
      cases hC2 : tryCombined kvs with
      | ok c => rw [hC2] at hC; cases hC
      | error eC => rw [hH]

theorem trackChain_ivp (kvs : JObj) (i : IndependentViewportProjectionTrack)
    (hE : isErr (EnumTrack.parse kvs) = true) (hC : isErr (tryCombined kvs) = true)
    (hH : isErr (HeatmapTrack.parse kvs) = true)
    (hI : IndependentViewportProjectionTrack.parse kvs = .ok i) :
    parseTrack (.obj kvs) = .ok (.ivp i) := by
  rw [parseTrack_obj]
  unfold trackChain
  cases hE2 : EnumTrack.parse kvs with
  | ok e => rw [hE2] at hE; cases hE
  | error eE =>
      cases hC2 : tryCombined kvs with
      | ok c => rw [hC2] at hC; cases hC
      | error eC =>
          cases hH2 : HeatmapTrack.parse kvs with
          | ok hh => rw [hH2] at hH; cases hH
          | error eH => rw [hI]

theorem trackChain_base (kvs : JObj) (b : BaseTrack)
    (hE : isErr (EnumTrack.parse kvs) = true) (hC : isErr (tryCombined kvs) = true)
    (hH : isErr (HeatmapTrack.parse kvs) = true)
    (hI : isErr (IndependentViewportProjectionTrack.parse kvs) = true)
    (hB : BaseTrack.parse kvs = .ok b) :
    parseTrack (.obj kvs) = .ok (.base b) := by
  rw [parseTrack_obj]
  unfold trackChain
  cases hE2 : EnumTrack.parse kvs with
  | ok e => rw [hE2] at hE; cases hE
  | error eE =>
      cases hC2 : tryCombined kvs with
      | ok c => rw [hC2] at hC; cases hC
      | error eC =>
          cases hH2 : HeatmapTrack.parse kvs with
          | ok hh => rw [hH2] at hH; cases hH
          | error eH =>
              cases hI2 : IndependentViewportProjectionTrack.parse kvs with
              | ok ii => rw [hI2] at hI; cases hI
              | error eI => rw [hB]; rfl

theorem parseTrack_base_of_baseOk (kvs : JObj) (b : BaseTrack)
    (hB : BaseTrack.parse kvs = .ok b) : ∃ t, parseTrack (.obj kvs) = .ok t := by
  cases hE : EnumTrack.parse kvs with
  | ok e => exact ⟨.enum e, trackChain_enum kvs e hE⟩
  | error eE =>
      cases hC : tryCombined kvs with
      | ok c => exact ⟨.combined c, trackChain_combined kvs c (by simp [isErr, hE]) hC⟩
      | error eC =>
          cases hH : HeatmapTrack.parse kvs with
          | ok h =>
              exact ⟨.heatmap h, trackChain_heatmap kvs h (by simp [isErr, hE])
                (by simp [isErr, hC]) hH⟩
          | error eH =>
              cases hI : IndependentViewportProjectionTrack.parse kvs with
              | ok i =>
                  exact ⟨.ivp i, trackChain_ivp kvs i (by simp [isErr, hE])
                    (by simp [isErr, hC]) (by simp [isErr, hH]) hI⟩
              | error eI =>
                  exact ⟨.base b, trackChain_base kvs b (by simp [isErr, hE])
                    (by simp [isErr, hC]) (by simp [isErr, hH]) (by simp [isErr, hI]) hB⟩

theorem parseTrack_ivp_inv (kvs : JObj) (t : IndependentViewportProjectionTrack)
    (hp : parseTrack (.obj kvs) = .ok (.ivp t)) :
    IndependentViewportProjectionTrack.parse kvs = .ok t := by
  rw [parseTrack_obj] at hp
  unfold trackChain at hp
  split at hp
  · injection hp with hp2; cases hp2
  · split at hp
    · injection hp with hp2; cases hp2
    · split at hp
      · injection hp with hp2; cases hp2
      · split at hp
        · rename_i i hI
          injection hp with hp2
          injection hp2 with hp3
          rw [hp3] at hI
          exact hI
        · rw [map_ok_iff] at hp
          obtain ⟨b, _, hbe⟩ := hp
          cases hbe

theorem decNullOnly_ok (l : Option J) (k : String) (h : decNullOnly l k = .ok ()) :
    l = none ∨ l = some .null := by
  rcases l with _ | j
  · exact Or.inl rfl
  · cases j with
    | null => exact Or.inr rfl
    | bool _ => cases h
    | num _ => cases h
    | str _ => cases h
    | arr _ => cases h
    | obj _ => cases h

theorem IndependentViewportProjectionTrack.parse_fromViewUid (o : JObj)
    (t : IndependentViewportProjectionTrack)
    (hp : IndependentViewportProjectionTrack.parse o = .ok t) :
    o.lookup "fromViewUid" = none ∨ o.lookup "fromViewUid" = some .null := by
  simp only [IndependentViewportProjectionTrack.parse, bind_ok_iff] at hp
  obtain ⟨ty, hty, hrest⟩ := hp
  split at hrest
  · simp only [bind_ok_iff] at hrest
    obtain ⟨u, hu, _⟩ := hrest
    exact decNullOnly_ok _ _ (by cases u; exact hu)
  · cases hrest

/- Lock iteration. -/

theorem Lock.iter_spec_lock (o : JObj) (l : Lock) (hp : Lock.parse o = .ok l) :
    l.iter = l.entries.map (fun p => (p.1, LockItem.entry p.2)) ∧
    "uid" ∉ l.iter.map Prod.fst := by
  obtain ⟨uid, es⟩ := l
  simp only [Lock.parse, bind_ok_iff, Except.ok.injEq, Lock.mk.injEq] at hp
  obtain ⟨es0, hes, uid0, huid, hue, hee⟩ := hp
  subst hue
  subst hee
  have hkeys := lockEntriesOf_keys o es0 hes
  have hfilter : ∀ es2 : List (String × (Rat × Rat × Rat)),
      (∀ p ∈ es2, p.1 ∉ Lock.fieldNames) →
      (es2.map (fun p => (p.1, LockItem.entry p.2))).filter
        (fun p => decide (p.1 ∉ Lock.fieldNames)) =
      es2.map (fun p => (p.1, LockItem.entry p.2)) := by
    intro es2
    induction es2 with
    | nil => intro _; rfl
    | cons p r ih =>
        intro h
        obtain ⟨k, e⟩ := p
        have hk : k ∉ Lock.fieldNames := h (k, e) (by simp)
        simp only [List.map_cons, List.filter_cons]
        rw [if_pos (decide_eq_true hk), ih (fun p2 hp2 => h p2 (by simp [hp2]))]
  have hiter : (Lock.iter ⟨uid0, es0⟩) = es0.map (fun p => (p.1, LockItem.entry p.2)) := by
    show (Lock.allItems ⟨uid0, es0⟩).filter _ = _
    simp only [Lock.allItems, List.filter_cons]
    rw [if_neg (by simp [Lock.fieldNames])]
    exact hfilter es0 hkeys
  refine ⟨hiter, ?_⟩
  intro hmem
  rw [hiter, List.map_map, List.mem_map] at hmem
  obtain ⟨q, hq1, hq2⟩ := hmem
  have hqq : q.1 = "uid" := hq2
  exact hkeys q hq1 (by rw [hqq]; simp [Lock.fieldNames])

theorem ValueScaleLock.iter_spec_vsl (o : JObj) (l : ValueScaleLock)
    (hp : ValueScaleLock.parse o = .ok l) :
    l.iter = l.entries.map (fun p => (p.1, LockItem.vslEntry p.2)) ∧
    "uid" ∉ l.iter.map Prod.fst ∧ "ignoreOffScreenValues" ∉ l.iter.map Prod.fst := by
  obtain ⟨uid, ioff, es⟩ := l
  simp only [ValueScaleLock.parse, bind_ok_iff, Except.ok.injEq,
    ValueScaleLock.mk.injEq] at hp
  obtain ⟨es0, hes, uid0, huid, ioff0, hioff, hue, hie, hee⟩ := hp
  subst hue
  subst hie
  subst hee
  have hkeys := vslEntriesOf_keys o es0 hes
  have hfilter : ∀ es2 : List (String × ValueScaleLockEntry),
      (∀ p ∈ es2, p.1 ∉ ValueScaleLock.fieldNames) →
      (es2.map (fun p => (p.1, LockItem.vslEntry p.2))).filter
        (fun p => decide (p.1 ∉ ValueScaleLock.fieldNames)) =
      es2.map (fun p => (p.1, LockItem.vslEntry p.2)) := by
    intro es2
    induction es2 with
    | nil => intro _; rfl
    | cons p r ih =>
        intro h
        obtain ⟨k, e⟩ := p
        have hk : k ∉ ValueScaleLock.fieldNames := h (k, e) (by simp)
        simp only [List.map_cons, List.filter_cons]
        rw [if_pos (decide_eq_true hk), ih (fun p2 hp2 => h p2 (by simp [hp2]))]
  have hiter : (ValueScaleLock.iter ⟨uid0, ioff0, es0⟩) =
      es0.map (fun p => (p.1, LockItem.vslEntry p.2)) := by
    show (ValueScaleLock.allItems ⟨uid0, ioff0, es0⟩).filter _ = _
    simp only [ValueScaleLock.allItems, List.filter_cons]
    rw [if_neg (by simp [ValueScaleLock.fieldNames]),
      if_neg (by simp [ValueScaleLock.fieldNames])]
    exact hfilter es0 hkeys
  refine ⟨hiter, ?_, ?_⟩
  · intro hmem
    rw [hiter, List.map_map, List.mem_map] at hmem
    obtain ⟨q, hq1, hq2⟩ := hmem
    have hqq : q.1 = "uid" := hq2
    exact hkeys q hq1 (by rw [hqq]; simp [ValueScaleLock.fieldNames])
  · intro hmem
    rw [hiter, List.map_map, List.mem_map] at hmem
    obtain ⟨q, hq1, hq2⟩ := hmem
    have hqq : q.1 = "ignoreOffScreenValues" := hq2
    exact hkeys q hq1 (by rw [hqq]; simp [ValueScaleLock.fieldNames])

/- Ordered-dict lemmas for the schema() post-processing. -/

theorem JObj.lookup_setKey_self : ∀ (o : JObj) (k : String) (v : J),
    (o.setKey k v).lookup k = some v
  | .nil, k, v => by simp [JObj.setKey, JObj.lookup]
  | .cons k2 w r, k, v => by
      by_cases hk : k2 = k
      · simp [JObj.setKey, JObj.lookup, hk]
      · simp [JObj.setKey, JObj.lookup, hk, JObj.lookup_setKey_self r k v]

theorem JObj.lookup_setKey_ne : ∀ (o : JObj) (k k2 : String) (v : J), k ≠ k2 →
    (o.setKey k v).lookup k2 = o.lookup k2
  | .nil, k, k2, v => by
      intro hne
      simp [JObj.setKey, JObj.lookup, hne]
  | .cons k3 w r, k, k2, v => by
      intro hne
      by_cases hk : k3 = k
      · subst hk
        simp [JObj.setKey, JObj.lookup, hne]
      · simp [JObj.setKey, JObj.lookup, hk, JObj.lookup_setKey_ne r k k2 v hne]

theorem JObj.mem_keys_of_lookup : ∀ (o : JObj) (k : String) (v : J),
    o.lookup k = some v → k ∈ o.keys
  | .nil, k, v => by intro h; cases h
  | .cons k2 w r, k, v => by
      intro h
      simp only [JObj.lookup] at h
      by_cases hk : k2 = k
      · subst hk
        simp [JObj.keys]
      · rw [if_neg hk] at h
        simp [JObj.keys]
        exact Or.inr (JObj.mem_keys_of_lookup r k v h)

theorem JObj.keys_setKey_mem : ∀ (o : JObj) (k : String) (v : J), k ∈ o.keys →
    (o.setKey k v).keys = o.keys
  | .nil, k, v => by intro h; cases h
  | .cons k2 w r, k, v => by
      intro h
      by_cases hk : k2 = k
      · simp [JObj.setKey, JObj.keys, hk]
      · simp only [JObj.keys, List.mem_cons] at h
        rcases h with h | h
        · exact absurd h.symm hk
        · simp [JObj.setKey, JObj.keys, hk, JObj.keys_setKey_mem r k v h]

theorem JObj.keys_setKey_notmem : ∀ (o : JObj) (k : String) (v : J), k ∉ o.keys →
    (o.setKey k v).keys = o.keys ++ [k]
  | .nil, k, v => by intro _; rfl
  | .cons k2 w r, k, v => by
      intro h
      simp only [JObj.keys, List.mem_cons] at h
      push_neg at h
      have hne : k2 ≠ k := fun he => h.1 he.symm
      simp [JObj.setKey, JObj.keys, hne, JObj.keys_setKey_notmem r k v h.2]

theorem JObj.append_nil : ∀ o : JObj, o.append .nil = o
  | .nil => rfl
  | .cons k v r => by simp [JObj.append, JObj.append_nil r]

theorem JObj.append_assoc : ∀ (a b c : JObj), (a.append b).append c = a.append (b.append c)
  | .nil, b, c => rfl
  | .cons k v r, b, c => by simp [JObj.append, JObj.append_assoc r b c]

theorem JObj.setKey_notmem_append : ∀ (o : JObj) (k : String) (v : J), k ∉ o.keys →
    o.setKey k v = o.append (.cons k v .nil)
  | .nil, k, v => by intro _; rfl
  | .cons k2 w r, k, v => by
      intro h
      simp only [JObj.keys, List.mem_cons] at h
      push_neg at h
      have hne : k2 ≠ k := fun he => h.1 he.symm
      simp [JObj.setKey, JObj.append, hne, JObj.setKey_notmem_append r k v h.2]

theorem JObj.keys_append : ∀ (a b : JObj), (a.append b).keys = a.keys ++ b.keys
  | .nil, b => rfl
  | .cons k v r, b => by simp [JObj.append, JObj.keys, JObj.keys_append r b]

theorem JObj.toList_map_fst : ∀ o : JObj, o.toList.map Prod.fst = o.keys
  | .nil => rfl
  | .cons k v r => by simp [JObj.toList, JObj.keys, JObj.toList_map_fst r]

theorem JObj.ofList_toList : ∀ o : JObj, JObj.ofList o.toList = o
  | .nil => rfl
  | .cons k v r => by simp [JObj.toList, JObj.ofList, JObj.ofList_toList r]

theorem foldl_setKey_nodup : ∀ (l : List (String × J)) (acc : JObj),
    (∀ p ∈ l, p.1 ∉ acc.keys) → (l.map Prod.fst).Nodup →
    l.foldl (fun a p => a.setKey p.1 p.2) acc = acc.append (JObj.ofList l) := by
  intro l
  induction l with
  | nil =>
      intro acc _ _
      simp [JObj.ofList, JObj.append_nil]
  | cons p r ih =>
      intro acc hdisj hnd
      obtain ⟨k, v⟩ := p
      simp only [List.map_cons, List.nodup_cons] at hnd
      have hknot : k ∉ acc.keys := hdisj (k, v) (by simp)
      simp only [List.foldl_cons]
      rw [ih (acc.setKey k v) (fun p2 hp2 => by
          rw [JObj.keys_setKey_notmem acc k v hknot]
          simp only [List.mem_append, List.mem_singleton]
          push_neg
          refine ⟨hdisj p2 (by simp [hp2]), ?_⟩
          intro he
          exact hnd.1 (he ▸ List.mem_map_of_mem Prod.fst hp2)) hnd.2]
      rw [JObj.setKey_notmem_append acc k v hknot, JObj.append_assoc]
      rfl

theorem odFromList_nodup (l : List (String × J)) (hnd : (l.map Prod.fst).Nodup) :
    odFromList l = JObj.ofList l := by
  unfold odFromList
  rw [foldl_setKey_nodup l .nil (fun p _ => by simp [JObj.keys]) hnd]
  rfl

theorem ept_keys (s : JObj) : (exclude_properties_titles s).keys = s.keys := by
  unfold exclude_properties_titles
  split
  · rename_i props hprops
    exact JObj.keys_setKey_mem s "properties" _ (JObj.mem_keys_of_lookup s _ _ hprops)
  · rfl

theorem viewconfSchemaExtra_ok (s r : JObj) (h : viewconfSchemaExtra s = some r) :
    r.keys = s.keys ∧ ∃ props vs, r.lookup "properties" = some (.obj props) ∧
      props.lookup "views" = some (.obj vs) ∧ vs.lookup "minItems" = some (.num 1) := by
  unfold viewconfSchemaExtra at h
  split at h
  · rename_i props hprops
    split at h
    · rename_i vs hvs
      injection h with h2
      subst h2
      constructor
      · rw [JObj.keys_setKey_mem _ "properties" _
          (JObj.mem_keys_of_lookup _ _ _ hprops), ept_keys]
      · exact ⟨props.setKey "views" (.obj (vs.setKey "minItems" (.num 1))),
          vs.setKey "minItems" (.num 1),
          JObj.lookup_setKey_self _ _ _,
          JObj.lookup_setKey_self _ _ _,
          JObj.lookup_setKey_self _ _ _⟩
    · cases h
  · cases h

theorem schema_ok (derived out : JObj)
    (hnd : derived.keys.Nodup) (h1 : "$schema" ∉ derived.keys) (h2 : "$id" ∉ derived.keys)
    (hs : schema derived = some out) :
    out.keys = "$schema" :: "$id" :: derived.keys ∧
    out.lookup "$schema" = some (.str "http://json-schema.org/draft-07/schema#") ∧
    out.lookup "$id" = some (.str "https://higlass.io/#viewconf") ∧
    ∃ props vs, out.lookup "properties" = some (.obj props) ∧
      props.lookup "views" = some (.obj vs) ∧ vs.lookup "minItems" = some (.num 1) := by
  unfold schema at hs
  split at hs
  · cases hs
  · rename_i root hroot
    split at hs
    · rename_i defs hdefs
      split at hs
      · cases hs
      · rename_i defs2 hdefs2
        obtain ⟨hrkeys, props, vs, hpv, hv, hm⟩ := viewconfSchemaExtra_ok derived root hroot
        have hdefmem : "definitions" ∈ root.keys := JObj.mem_keys_of_lookup _ _ _ hdefs
        have hr2k : (root.setKey "definitions" (.obj defs2)).keys = root.keys :=
          JObj.keys_setKey_mem _ _ _ hdefmem
        have hmapfst :
            ((([("$schema", J.str "http://json-schema.org/draft-07/schema#"),
               ("$id", J.str "https://higlass.io/#viewconf")] ++
               (root.setKey "definitions" (.obj defs2)).toList).map Prod.fst)) =
            "$schema" :: "$id" :: derived.keys := by
          simp [JObj.toList_map_fst, hr2k, hrkeys]
        have hndall : ((([("$schema", J.str "http://json-schema.org/draft-07/schema#"),
            ("$id", J.str "https://higlass.io/#viewconf")] ++
            (root.setKey "definitions" (.obj defs2)).toList).map Prod.fst)).Nodup := by
          rw [hmapfst]
          refine List.nodup_cons.mpr ⟨?_, List.nodup_cons.mpr ⟨h2, hnd⟩⟩
          simp only [List.mem_cons]
          push_neg
          exact ⟨by decide, h1⟩
        rw [odFromList_nodup _ hndall] at hs
        injection hs with hs2
        subst hs2
        have hout : JObj.ofList
            ([("$schema", J.str "http://json-schema.org/draft-07/schema#"),
              ("$id", J.str "https://higlass.io/#viewconf")] ++
              (root.setKey "definitions" (.obj defs2)).toList) =
            .cons "$schema" (.str "http://json-schema.org/draft-07/schema#")
              (.cons "$id" (.str "https://higlass.io/#viewconf")
                (root.setKey "definitions" (.obj defs2))) := by
          simp [JObj.ofList, JObj.ofList_toList]
        rw [hout]
        refine ⟨?_, ?_, ?_, props, vs, ?_, hv, hm⟩
        · simp [JObj.keys, hr2k, hrkeys]
        · simp [JObj.lookup]
        · simp [JObj.lookup]
        · show JObj.lookup _ "properties" = _
          simp only [JObj.lookup]
          rw [if_neg (by decide), if_neg (by decide),
            JObj.lookup_setKey_ne _ _ _ _ (by decide)]
          exact hpv
    · cases hs

theorem simplify_enum_schema_shape : ∀ (s : JObj) (r : J),
    simplify_enum_schema s = some r →
    (∃ l, r = .obj (.cons "enum" (.arr l) .nil)) ∨
    (∃ v, r = .obj (.cons "const" v .nil)) := by
  intro s r h
  unfold simplify_enum_schema at h
  split at h
  · rename_i entries hany
    cases hc : collectEnums entries with
    | none => rw [hc] at h; cases h
    | some l =>
        rw [hc] at h
        injection h with h2
        exact Or.inl ⟨l, h2.symm⟩
  · cases h
  · split at h
    · injection h with h2
      exact Or.inr ⟨_, h2.symm⟩
    · injection h with h2
      exact Or.inl ⟨_, h2.symm⟩
    · cases h

theorem Viewconf.parse_views_none (kvs : JObj) (m : Viewconf)
    (hlk : kvs.lookup "views" = none) (hp : Viewconf.parseObj kvs = .ok m) :
    m.views = none := by
  obtain ⟨ed, ved, ted, zf, cl, evu, tss, vws, zlk, llk, vslk, cip⟩ := m
  simp only [Viewconf.parseObj] at hp
  split at hp
  · simp only [bind_ok_iff, Except.ok.injEq, Viewconf.mk.injEq] at hp
    obtain ⟨a1, h1, a2, h2, a3, h3, a4, h4, a5, h5, a6, h6, a7, h7, a8, h8, a9, h9,
      a10, h10, a11, h11, a12, h12, he⟩ := hp
    rw [hlk] at h8
    rw [show decViews none "views" = .ok none from rfl] at h8
    injection h8 with h8b
    show vws = none
    rw [← he.2.2.2.2.2.2.2.1, ← h8b]
  · cases hp

/- ===========================================================================
   Claim theorems. -/

/-- Claim C1, counterexample: the track document with `type`
    "viewport-projection-center" and no `fromViewUid` parses as an EnumTrack,
    not as an IndependentViewportProjectionTrack — EnumTrack is tried first and
    its type literals include the three projection strings. -/
theorem c1_counterexample :
    parseTrack (.obj vpCenterDoc) = .ok (.enum vpCenterEnumModel) ∧
    vpCenterDoc.lookup "fromViewUid" = none := ⟨rfl, rfl⟩

/-- Claim C1 (amended): a projection-typed document with `fromViewUid` present
    and non-null parses as an EnumTrack, as claimed; with `fromViewUid`
    absent/null it still parses as an EnumTrack whenever EnumTrack validation
    succeeds (EnumTrack comes first in the union), and an
    IndependentViewportProjectionTrack is returned only for documents on which
    the earlier variants fail while `fromViewUid` is absent or null (such
    documents exist, e.g. `ivpReachableDoc`). -/
theorem c1_projection_routing :
    parseTrack (.obj vpCenterFromViewDoc) = .ok (.enum vpCenterFromViewEnumModel) ∧
    parseTrack (.obj vpCenterDoc) = .ok (.enum vpCenterEnumModel) ∧
    (∀ (kvs : JObj) (e : EnumTrack), EnumTrack.parse kvs = .ok e →
      parseTrack (.obj kvs) = .ok (.enum e)) ∧
    (∀ (kvs : JObj) (t : IndependentViewportProjectionTrack),
      parseTrack (.obj kvs) = .ok (.ivp t) →
      kvs.lookup "fromViewUid" = none ∨ kvs.lookup "fromViewUid" = some .null) ∧
    parseTrack (.obj ivpReachableDoc) = .ok (.ivp ivpReachableModel) :=
  ⟨rfl, rfl, trackChain_enum,
   fun kvs t hp =>
     IndependentViewportProjectionTrack.parse_fromViewUid kvs t
       (parseTrack_ivp_inv kvs t hp),
   rfl⟩

/-- Claim C1 witness: the amended claim applied to concrete documents. -/
theorem c1_witness :
    parseTrack (.obj vpCenterDoc) = .ok (.enum vpCenterEnumModel) ∧
    (ivpReachableDoc.lookup "fromViewUid" = none ∨
      ivpReachableDoc.lookup "fromViewUid" = some .null) :=
  ⟨c1_projection_routing.2.2.1 vpCenterDoc vpCenterEnumModel rfl,
   c1_projection_routing.2.2.2.1 ivpReachableDoc ivpReachableModel rfl⟩

/-- Claim C2: parsing a viewconf whose `views` is the empty list fails (the
    minimum length is 1), and the same document with one valid view parses. -/
theorem c2_views_min_items :
    Viewconf.parse emptyViewsDoc =
      .error "views: ensure this value has at least 1 items" ∧
    Viewconf.parse oneViewDoc =
      .ok ⟨some true, some true, some true, none, none, none, none,
           some [validViewModel], none, none, none, none⟩ := ⟨rfl, rfl⟩

/-- Claim C3, counterexample: a track document with a string `type` need not
    parse — a non-integer `width` fails every variant of the union, BaseTrack
    included, so "parsing never fails" is false as stated. -/
theorem c3_counterexample :
    isErr (parseTrack (.obj badWidthDoc)) = true ∧
    badWidthDoc.lookup "type" = some (.str "some-unknown-kind") := ⟨rfl, rfl⟩

/-- Claim C3 (amended): the union is resolved in the order EnumTrack,
    CombinedTrack, HeatmapTrack, IndependentViewportProjectionTrack, BaseTrack
    and the first structurally matching variant wins; the examples parse as
    claimed; and parsing succeeds whenever BaseTrack's own field constraints
    are satisfied (it fails only when the shared base fields themselves are
    invalid, e.g. a non-integer width). -/
theorem c3_union_order :
    parseTrack (.obj combinedEmptyDoc) = .ok (.combined (.mk .nil none)) ∧
    parseTrack (.obj heatmapBareDoc) = .ok (.heatmap heatmapBareModel) ∧
    parseTrack (.obj unknownKindDoc) =
      .ok (.base ⟨"some-unknown-kind", none, none, none, none, .nil⟩) ∧
    (∀ (kvs : JObj) (e : EnumTrack), EnumTrack.parse kvs = .ok e →
      parseTrack (.obj kvs) = .ok (.enum e)) ∧
    (∀ (kvs : JObj) (c : CombinedTrack), isErr (EnumTrack.parse kvs) = true →
      tryCombined kvs = .ok c → parseTrack (.obj kvs) = .ok (.combined c)) ∧
    (∀ (kvs : JObj) (h : HeatmapTrack), isErr (EnumTrack.parse kvs) = true →
      isErr (tryCombined kvs) = true → HeatmapTrack.parse kvs = .ok h →
      parseTrack (.obj kvs) = .ok (.heatmap h)) ∧
    (∀ (kvs : JObj) (i : IndependentViewportProjectionTrack),
      isErr (EnumTrack.parse kvs) = true → isErr (tryCombined kvs) = true →
      isErr (HeatmapTrack.parse kvs) = true →
      IndependentViewportProjectionTrack.parse kvs = .ok i →
      parseTrack (.obj kvs) = .ok (.ivp i)) ∧
    (∀ (kvs : JObj) (b : BaseTrack), isErr (EnumTrack.parse kvs) = true →
      isErr (tryCombined kvs) = true → isErr (HeatmapTrack.parse kvs) = true →
      isErr (IndependentViewportProjectionTrack.parse kvs) = true →
      BaseTrack.parse kvs = .ok b → parseTrack (.obj kvs) = .ok (.base b)) ∧
    (∀ (kvs : JObj) (b : BaseTrack), BaseTrack.parse kvs = .ok b →
      ∃ t, parseTrack (.obj kvs) = .ok t) :=
  ⟨rfl, rfl, rfl, trackChain_enum, trackChain_combined, trackChain_heatmap,
   trackChain_ivp, trackChain_base, parseTrack_base_of_baseOk⟩

/-- Claim C3 witness: the ordering clauses applied to concrete documents. -/
theorem c3_witness :
    (∃ t, parseTrack (.obj unknownKindDoc) = .ok t) ∧
    parseTrack (.obj combinedEmptyDoc) = .ok (.combined (.mk .nil none)) :=
  ⟨c3_union_order.2.2.2.2.2.2.2.2 unknownKindDoc
     ⟨"some-unknown-kind", none, none, none, none, .nil⟩ rfl,
   c3_union_order.2.2.2.2.1 combinedEmptyDoc (.mk .nil none) rfl rfl⟩

/-- Claim C4: dynamic lock entries are validated at construction time: the
    positional lock example parses with uid "a", iteration yields exactly the
    dynamic pair, a 2-tuple entry fails naming the offending key; the
    value-scale example parses, and a missing required sub-key fails. -/
theorem c4_lock_validation :
    Lock.parse posLockDoc = .ok posLockModel ∧
    posLockModel.uid = some "a" ∧
    posLockModel.iter = [("view1", LockItem.entry (1, 2, 3))] ∧
    Lock.parse badPosLockDoc =
      .error "lock entry view1: tuple of three numbers expected" ∧
    ValueScaleLock.parse vslDoc = .ok vslModel ∧
    ValueScaleLock.parse badVslDoc = .error "track: field required" :=
  ⟨rfl, rfl, rfl, rfl, rfl, rfl⟩

/-- Claim C5, counterexample: a View document with an extra key fails, but
    removing the extra key does not in general make it parse — the remaining
    document can still be invalid (here: `layout`/`tracks` are required). -/
theorem c5_counterexample :
    View.parse (.cons "bogus" (.num 1) .nil) = .error "View: extra fields not permitted" ∧
    isErr (View.parse .nil) = true := ⟨rfl, rfl⟩

/-- Claim C5 (amended): for Viewconf and View any document with an undeclared
    top-level key fails validation; and for a document that otherwise parses,
    adding an undeclared key makes it fail while the document without it still
    parses. -/
theorem c5_strictness :
    (∀ (o : JObj) (k : String), k ∈ o.keys → k ∉ View.fieldNames →
      isErr (View.parse o) = true) ∧
    (∀ (o : JObj) (k : String), k ∈ o.keys → k ∉ Viewconf.fieldNames →
      isErr (Viewconf.parseObj o) = true) ∧
    (∀ (o : JObj) (v : View) (k : String) (val : J), View.parse o = .ok v →
      k ∉ View.fieldNames →
      isErr (View.parse (.cons k val o)) = true ∧ View.parse o = .ok v) ∧
    (∀ (o : JObj) (m : Viewconf) (k : String) (val : J), Viewconf.parseObj o = .ok m →
      k ∉ Viewconf.fieldNames →
      isErr (Viewconf.parseObj (.cons k val o)) = true ∧ Viewconf.parseObj o = .ok m) := by
  refine ⟨?_, ?_, ?_, ?_⟩
  · intro o k h1 h2
    rw [View.parse_extra_key o k h1 h2]
    rfl
  · intro o k h1 h2
    rw [Viewconf.parseObj_extra_key o k h1 h2]
    rfl
  · intro o v k val hp hk
    refine ⟨?_, hp⟩
    rw [View.parse_extra_key (.cons k val o) k (by simp [JObj.keys]) hk]
    rfl
  · intro o m k val hp hk
    refine ⟨?_, hp⟩
    rw [Viewconf.parseObj_extra_key (.cons k val o) k (by simp [JObj.keys]) hk]
    rfl

/-- Claim C5 witness: the strictness clauses applied to concrete documents. -/
theorem c5_witness :
    isErr (View.parse (.cons "bogus" (.num 1) validViewDoc)) = true ∧
    isErr (Viewconf.parseObj (.cons "extra" .null .nil)) = true :=
  ⟨(c5_strictness.2.2.1 validViewDoc validViewModel "bogus" (.num 1) rfl (by decide)).1,
   c5_strictness.2.1 (.cons "extra" .null .nil) "extra" (by simp [JObj.keys]) (by decide)⟩

/-- Claim C6, counterexample: three valid viewconf documents on which
    serialise-then-reparse changes the parsed model: one whose track parses as
    an IndependentViewportProjectionTrack (it comes back as an EnumTrack), one
    with a null-valued retained extra field (dropped by exclude_none), and one
    with an explicitly null `editable` (comes back as true). -/
theorem c6_counterexample :
    isErr (Viewconf.parse ivpViewconfDoc) = false ∧
    roundTripsB ivpViewconfDoc = false ∧
    isErr (Viewconf.parse nullExtraViewconfDoc) = false ∧
    roundTripsB nullExtraViewconfDoc = false ∧
    isErr (Viewconf.parse nullEditableDoc) = false ∧
    roundTripsB nullEditableDoc = false :=
  ⟨rfl, by decide, rfl, by decide, rfl, by decide⟩

/-- Claim C6 (amended): for every valid viewconf document whose parsed model is
    clean — no IndependentViewportProjectionTrack, no JSON null stored at an
    object-entry position of a retained raw value, and the editable flags not
    explicitly null — serialising with the default omit-nulls policy and
    re-parsing yields the same model; the minimal one-view example (top-axis
    plus center heatmap, nothing else) parses with editable defaulting to true
    and round-trips. -/
theorem c6_round_trip :
    (∀ (j : J) (m : Viewconf), Viewconf.parse j = .ok m → Viewconf.clean m = true →
      Viewconf.parse (.obj m.dict) = .ok m) ∧
    Viewconf.parse minimalDoc = .ok minimalModel ∧
    minimalModel.editable = some true ∧
    Viewconf.clean minimalModel = true ∧
    Viewconf.parse (.obj minimalModel.dict) = .ok minimalModel :=
  ⟨Viewconf.parse_rt, rfl, rfl, rfl, rfl⟩

/-- Claim C6 witness: the round-trip theorem applied to the minimal document. -/
theorem c6_witness : Viewconf.parse (.obj minimalModel.dict) = .ok minimalModel :=
  c6_round_trip.1 minimalDoc minimalModel rfl rfl

/-- Claim C7: the generated schema document starts with `$schema` (JSON Schema
    draft-07) and `$id` (https://higlass.io/#viewconf), in that order, followed
    by the derived root keys in their original order, and its root `views`
    property carries `minItems: 1`. -/
theorem c7_schema_document :
    ∀ (derived out : JObj), derived.keys.Nodup → "$schema" ∉ derived.keys →
      "$id" ∉ derived.keys → schema derived = some out →
      out.keys = "$schema" :: "$id" :: derived.keys ∧
      out.lookup "$schema" = some (.str "http://json-schema.org/draft-07/schema#") ∧
      out.lookup "$id" = some (.str "https://higlass.io/#viewconf") ∧
      ∃ props vs, out.lookup "properties" = some (.obj props) ∧
        props.lookup "views" = some (.obj vs) ∧ vs.lookup "minItems" = some (.num 1) :=
  fun derived out hnd h1 h2 hs => schema_ok derived out hnd h1 h2 hs

/-- Claim C7 witness: the schema document generated from a sample derived root
    schema. -/
theorem c7_witness :
    sampleOut.keys = "$schema" :: "$id" :: sampleDerived.keys ∧
    sampleOut.lookup "$schema" = some (.str "http://json-schema.org/draft-07/schema#") ∧
    sampleOut.lookup "$id" = some (.str "https://higlass.io/#viewconf") :=
  ⟨(c7_schema_document sampleDerived sampleOut (by decide) (by decide) (by decide) rfl).1,
   (c7_schema_document sampleDerived sampleOut (by decide) (by decide) (by decide) rfl).2.1,
   (c7_schema_document sampleDerived sampleOut (by decide) (by decide) (by decide)
     rfl).2.2.1⟩

/-- Claim C8: simplify_enum_schema turns the axis fragment of AxisSpecificLock
    into the single flat enumeration x, y — whether the derived fragment was
    already a flat enum or a union of single-valued enums — and its output is
    always a flat enum or a const, never a multi-branch union-of-enums. -/
theorem c8_axis_enum_simplification :
    simplify_enum_schema axisEnumFragment =
      some (.obj (.cons "enum" (.arr (.cons (.str "x") (.cons (.str "y") .nil))) .nil) :
      J) ∧
    simplify_enum_schema axisAnyOfFragment =
      some (.obj (.cons "enum" (.arr (.cons (.str "x") (.cons (.str "y") .nil))) .nil) :
      J) ∧
    ((axisSpecificLockSchemaExtra (axisLockDerived axisEnumFragment)).bind
      (fun out => axisPropertyOf out)) =
      some (.obj (.cons "enum" (.arr (.cons (.str "x") (.cons (.str "y") .nil))) .nil) :
      J) ∧
    ((axisSpecificLockSchemaExtra (axisLockDerived axisAnyOfFragment)).bind
      (fun out => axisPropertyOf out)) =
      some (.obj (.cons "enum" (.arr (.cons (.str "x") (.cons (.str "y") .nil))) .nil) :
      J) ∧
    (∀ (s : JObj) (r : J), simplify_enum_schema s = some r →
      isFlatEnumOrConst r = true) := by
  refine ⟨rfl, rfl, rfl, rfl, ?_⟩
  intro s r h
  rcases simplify_enum_schema_shape s r h with ⟨l, hl⟩ | ⟨v, hv⟩
  · subst hl; rfl
  · subst hv; rfl

/-- Claim C8 witness: the shape clause applied to the axis fragment. -/
theorem c8_witness :
    isFlatEnumOrConst
      (.obj (.cons "enum" (.arr (.cons (.str "x") (.cons (.str "y") .nil))) .nil) : J) =
      true :=
  c8_axis_enum_simplification.2.2.2.2 axisEnumFragment _ rfl

/-- Claim C9: iterating a constructed Lock or ValueScaleLock yields exactly the
    dynamic (view-id, entry) pairs; the declared fields uid (and
    ignoreOffScreenValues for the value-scale flavor) never appear. -/
theorem c9_lock_iteration :
    (∀ (o : JObj) (l : Lock), Lock.parse o = .ok l →
      l.iter = l.entries.map (fun p => (p.1, LockItem.entry p.2)) ∧
      "uid" ∉ l.iter.map Prod.fst) ∧
    (∀ (o : JObj) (l : ValueScaleLock), ValueScaleLock.parse o = .ok l →
      l.iter = l.entries.map (fun p => (p.1, LockItem.vslEntry p.2)) ∧
      "uid" ∉ l.iter.map Prod.fst ∧
      "ignoreOffScreenValues" ∉ l.iter.map Prod.fst) :=
  ⟨Lock.iter_spec_lock, ValueScaleLock.iter_spec_vsl⟩

/-- Claim C9 witness: the iteration contract on the concrete positional and
    value-scale locks. -/
theorem c9_witness :
    posLockModel.iter = [("view1", LockItem.entry (1, 2, 3))] ∧
    "uid" ∉ posLockModel.iter.map Prod.fst ∧
    "ignoreOffScreenValues" ∉ vslModel.iter.map Prod.fst := by
  refine ⟨?_, ?_, ?_⟩
  · exact (c9_lock_iteration.1 posLockDoc posLockModel rfl).1
  · exact (c9_lock_iteration.1 posLockDoc posLockModel rfl).2
  · exact (c9_lock_iteration.2 vslDoc vslModel rfl).2.2

/-- Claim C10: a viewconf document without a `views` key parses successfully
    with views = None; only an explicitly present list is subject to the
    minimum-length constraint. -/
theorem c10_views_optional :
    Viewconf.parse (.obj .nil) =
      .ok ⟨some true, some true, some true, none, none, none, none, none, none, none,
           none, none⟩ ∧
    (∀ (kvs : JObj) (m : Viewconf), kvs.lookup "views" = none →
      Viewconf.parseObj kvs = .ok m → m.views = none) :=
  ⟨rfl, Viewconf.parse_views_none⟩

/-- Claim C10 witness: the views-absent clause applied to the empty document. -/
theorem c10_witness :
    (⟨some true, some true, some true, none, none, none, none, none, none, none,
      none, none⟩ : Viewconf).views = none :=
  c10_views_optional.2 .nil
    ⟨some true, some true, some true, none, none, none, none, none, none, none,
     none, none⟩ rfl rfl
